import Mathlib

/-!
Verification of the chefs-cam frontend's ingredient-amount parsing, formatting
and serving-scaling code, and of its recipe-filtering and query-building code.

Strings are modelled as `List Char`; JavaScript numbers are modelled as exact
rationals extended with the special values `Infinity`, `-Infinity` and `NaN`
(`JSNum`).  Each definition is a direct transcription of the corresponding
function in the repository's source (file and line references in doc comments).
-/

namespace ChefsCam

/-- The character classes used by the source's regular expressions:
decimal digits (`\d`). -/
def isDig (c : Char) : Bool := '0' ≤ c ∧ c ≤ '9'

/-- JavaScript whitespace (`\s`, `String.prototype.trim`), restricted to the
ASCII whitespace characters that can occur in the data handled here. -/
def isWsJs (c : Char) : Bool :=
  c = ' ' ∨ c = '\t' ∨ c = '\n' ∨ c = '\r' ∨ c = '\x0b' ∨ c = '\x0c'

/-- ASCII letters (`[a-zA-Z]` in the source's leading-amount regex). -/
def isAlpha (c : Char) : Bool := ('a' ≤ c ∧ c ≤ 'z') ∨ ('A' ≤ c ∧ c ≤ 'Z')

/-- `String.prototype.toLowerCase`, ASCII range (the data here is ASCII). -/
def lowerCh (c : Char) : Char :=
  if 'A' ≤ c ∧ c ≤ 'Z' then Char.ofNat (c.toNat + 32) else c

def lowerStr (s : List Char) : List Char := s.map lowerCh

/-- Numeric value of a digit character. -/
def digVal (c : Char) : ℕ := c.toNat - 48

/-- The digit character for `d < 10`. -/
def digCh (d : ℕ) : Char := Char.ofNat (48 + d)

/-- Value of a digit string, most significant first (the value JavaScript's
number grammar assigns to a run of decimal digits). -/
def natVal (s : List Char) : ℕ := s.foldl (fun a c => 10 * a + digVal c) 0

/-- Decimal rendering of a natural number (JavaScript `String(n)` for a
non-negative integer). -/
def natStr (n : ℕ) : List Char :=
  if h : n < 10 then [digCh n] else natStr (n / 10) ++ [digCh (n % 10)]
  termination_by n
  decreasing_by exact Nat.div_lt_self (by omega) (by omega)

/-- Greatest prefix of digit characters together with the remainder
(the deterministic reading of a `\d+` at the head of the input). -/
def spanDig : List Char → List Char × List Char
  | [] => ([], [])
  | c :: cs =>
      if isDig c then
        let (d, r) := spanDig cs
        (c :: d, r)
      else ([], c :: cs)

/-- Greatest prefix of JS whitespace together with the remainder (`\s+`/`\s*`). -/
def spanWs : List Char → List Char × List Char
  | [] => ([], [])
  | c :: cs =>
      if isWsJs c then
        let (d, r) := spanWs cs
        (c :: d, r)
      else ([], c :: cs)

/-- Greatest prefix of ASCII letters together with the remainder (`[a-zA-Z]+`). -/
def spanAlpha : List Char → List Char × List Char
  | [] => ([], [])
  | c :: cs =>
      if isAlpha c then
        let (d, r) := spanAlpha cs
        (c :: d, r)
      else ([], c :: cs)

/-- `String.prototype.trim`. -/
def jsTrim (s : List Char) : List Char :=
  ((s.dropWhile isWsJs).reverse.dropWhile isWsJs).reverse

/-- `String.prototype.split(sep)` for a one-character separator: JavaScript
keeps empty pieces, and splitting the empty string yields `[""]`. -/
def splitCh (sep : Char) : List Char → List (List Char)
  | [] => [[]]
  | c :: cs =>
      if c = sep then [] :: splitCh sep cs
      else
        match splitCh sep cs with
        | h :: t => (c :: h) :: t
        | [] => [[c]]

/-- Whether `pat` occurs as a contiguous substring of `s`
(`String.prototype.includes`). -/
def startsWithStr : List Char → List Char → Bool
  | [], _ => true
  | _ :: _, [] => false
  | p :: ps, c :: cs => p = c && startsWithStr ps cs

def containsSub (pat : List Char) : List Char → Bool
  | [] => startsWithStr pat []
  | c :: cs => startsWithStr pat (c :: cs) || containsSub pat cs

/-! ### Basic lemmas about the string helpers -/

theorem spanDig_eq (s : List Char) :
    spanDig s = (s.takeWhile isDig, s.dropWhile isDig) := by
  induction s with
  | nil => rfl
  | cons c cs ih =>
      by_cases h : isDig c = true
      · simp [spanDig, h, List.takeWhile, List.dropWhile, ih]
      · simp [spanDig, h, List.takeWhile, List.dropWhile]

theorem spanWs_eq (s : List Char) :
    spanWs s = (s.takeWhile isWsJs, s.dropWhile isWsJs) := by
  induction s with
  | nil => rfl
  | cons c cs ih =>
      by_cases h : isWsJs c = true
      · simp [spanWs, h, List.takeWhile, List.dropWhile, ih]
      · simp [spanWs, h, List.takeWhile, List.dropWhile]

theorem spanAlpha_eq (s : List Char) :
    spanAlpha s = (s.takeWhile isAlpha, s.dropWhile isAlpha) := by
  induction s with
  | nil => rfl
  | cons c cs ih =>
      by_cases h : isAlpha c = true
      · simp [spanAlpha, h, List.takeWhile, List.dropWhile, ih]
      · simp [spanAlpha, h, List.takeWhile, List.dropWhile]

/-- A span over a string that is all digits consumes the whole string. -/
theorem spanDig_all {s : List Char} (h : ∀ c ∈ s, isDig c = true) :
    spanDig s = (s, []) := by
  rw [spanDig_eq, List.takeWhile_eq_self_iff.2 h, List.dropWhile_eq_nil_iff.2 h]

/-- A span over a string `d ++ c :: r` with `d` all digits and `c` not a digit
stops exactly at `c`. -/
theorem spanDig_split {d : List Char} {c : Char} {r : List Char}
    (hd : ∀ x ∈ d, isDig x = true) (hc : isDig c = false) :
    spanDig (d ++ c :: r) = (d, c :: r) := by
  rw [spanDig_eq]
  simp only [Prod.mk.injEq]
  constructor
  · induction d with
    | nil => simp [List.takeWhile, hc]
    | cons a as ih =>
        have ha : isDig a = true := hd a (by simp)
        simp only [List.cons_append, List.takeWhile, ha]
        simp only [List.cons.injEq, true_and]
        exact ih (fun x hx => hd x (by simp [hx]))
  · induction d with
    | nil => simp [List.dropWhile, hc]
    | cons a as ih =>
        have ha : isDig a = true := hd a (by simp)
        simp only [List.cons_append, List.dropWhile, ha]
        exact ih (fun x hx => hd x (by simp [hx]))

theorem digits_not_ws {c : Char} (h : isDig c = true) : isWsJs c = false := by
  simp only [isDig, decide_eq_true_eq, Bool.and_eq_true] at h
  simp only [isWsJs]
  have h1 := h.1
  have h2 := h.2
  simp only [decide_eq_false_iff_not, not_or]
  refine ⟨?_, ?_, ?_, ?_, ?_, ?_⟩ <;>
    (intro hc; subst hc; revert h1 h2; decide)

theorem dropWhile_eq_self_of (p : Char → Bool) {s : List Char}
    (h : ∀ c ∈ s, p c = false) : s.dropWhile p = s := by
  cases s with
  | nil => rfl
  | cons c cs => simp [List.dropWhile, h c (List.mem_cons_self c cs)]

/-- Trimming a string whose first and last characters are not whitespace is the
identity; in particular trimming leaves digit strings alone. -/
theorem jsTrim_of_no_ws {s : List Char} (h : ∀ c ∈ s, isWsJs c = false) :
    jsTrim s = s := by
  unfold jsTrim
  rw [dropWhile_eq_self_of _ h,
    dropWhile_eq_self_of _ (fun c hc => h c (List.mem_reverse.1 hc)),
    List.reverse_reverse]

theorem lowerCh_of_not_upper {c : Char} (h : ¬('A' ≤ c ∧ c ≤ 'Z')) :
    lowerCh c = c := by simp [lowerCh, h]

theorem digit_lowerCh {c : Char} (h : isDig c = true) : lowerCh c = c := by
  simp only [isDig, decide_eq_true_eq, Bool.and_eq_true] at h
  apply lowerCh_of_not_upper
  rintro ⟨h1, h2⟩
  have := h.1
  have := h.2
  have hA : ('A' : Char).toNat = 65 := by decide
  have h9 : ('9' : Char).toNat = 57 := by decide
  have : c.toNat ≤ 57 := h.2
  have : 65 ≤ c.toNat := h1
  omega

/-- A string that does not contain the letter `t` cannot contain the substring
`"to taste"`. -/
theorem containsSub_to_taste_false {s : List Char} (h : 't' ∉ s) :
    containsSub ("to taste".data) s = false := by
  induction s with
  | nil => decide
  | cons c cs ih =>
      have hc : c ≠ 't' := fun hc => h (hc ▸ List.mem_cons_self c cs)
      have hcs : 't' ∉ cs := fun hm => h (List.mem_cons_of_mem c hm)
      simp only [containsSub, Bool.or_eq_false_iff]
      refine ⟨?_, ih hcs⟩
      show startsWithStr ('t' :: "o taste".data) (c :: cs) = false
      simp [startsWithStr, Ne.symm hc]

/-! ### Digit-string value/print roundtrip -/

theorem digVal_digCh {d : ℕ} (h : d < 10) : digVal (digCh d) = d := by
  interval_cases d <;> decide

theorem isDig_digCh {d : ℕ} (h : d < 10) : isDig (digCh d) = true := by
  interval_cases d <;> decide

theorem natVal_append_digit (s : List Char) (c : Char) :
    natVal (s ++ [c]) = 10 * natVal s + digVal c := by
  simp [natVal, List.foldl_append]

theorem natStr_all_digits (n : ℕ) : ∀ c ∈ natStr n, isDig c = true := by
  induction n using Nat.strong_induction_on with
  | _ n ih =>
      intro c hc
      by_cases h : n < 10
      · rw [natStr, dif_pos h] at hc
        simp only [List.mem_singleton] at hc
        exact hc ▸ isDig_digCh h
      · rw [natStr, dif_neg h] at hc
        rcases List.mem_append.1 hc with h1 | h1
        · exact ih (n / 10) (Nat.div_lt_self (by omega) (by omega)) c h1
        · simp only [List.mem_singleton] at h1
          exact h1 ▸ isDig_digCh (Nat.mod_lt _ (by omega))

theorem natStr_ne_nil (n : ℕ) : natStr n ≠ [] := by
  by_cases h : n < 10
  · rw [natStr, dif_pos h]; simp
  · rw [natStr, dif_neg h]; simp

theorem natVal_natStr (n : ℕ) : natVal (natStr n) = n := by
  induction n using Nat.strong_induction_on with
  | _ n ih =>
      by_cases h : n < 10
      · rw [natStr, dif_pos h]
        show natVal [digCh n] = n
        simp [natVal, digVal_digCh h]
      · rw [natStr, dif_neg h, natVal_append_digit,
          ih (n / 10) (Nat.div_lt_self (by omega) (by omega)),
          digVal_digCh (Nat.mod_lt _ (by omega))]
        omega

/-! ### JavaScript numbers

A JavaScript number is modelled as an exact rational or one of the special
values `Infinity`, `-Infinity`, `NaN`.  (Source arithmetic is IEEE-754 double
precision; the exact-rational model is the mathematical reading used
throughout, and the tolerances involved in the verified statements are far
larger than double rounding error.) -/

inductive JSNum where
  | num (q : ℚ)
  | posInf
  | negInf
  | nan
  deriving DecidableEq, Repr

deriving instance DecidableEq for Except

namespace JSNum

/-- JavaScript `+` on numbers. -/
def add : JSNum → JSNum → JSNum
  | nan, _ => nan
  | _, nan => nan
  | posInf, negInf => nan
  | negInf, posInf => nan
  | posInf, _ => posInf
  | _, posInf => posInf
  | negInf, _ => negInf
  | _, negInf => negInf
  | num a, num b => num (a + b)

/-- JavaScript `*` on numbers. -/
def mul : JSNum → JSNum → JSNum
  | nan, _ => nan
  | _, nan => nan
  | posInf, posInf => posInf
  | posInf, negInf => negInf
  | negInf, posInf => negInf
  | negInf, negInf => posInf
  | posInf, num b => if b = 0 then nan else if 0 < b then posInf else negInf
  | num a, posInf => if a = 0 then nan else if 0 < a then posInf else negInf
  | negInf, num b => if b = 0 then nan else if 0 < b then negInf else posInf
  | num a, negInf => if a = 0 then nan else if 0 < a then negInf else posInf
  | num a, num b => num (a * b)

/-- JavaScript `/` on numbers (division by zero gives an infinity or `NaN`;
there is no negative zero in the rational model, matching the non-negative
literals produced by the source's digit-only regexes). -/
def div : JSNum → JSNum → JSNum
  | nan, _ => nan
  | _, nan => nan
  | posInf, posInf => nan
  | posInf, negInf => nan
  | negInf, posInf => nan
  | negInf, negInf => nan
  | posInf, num b => if 0 ≤ b then posInf else negInf
  | negInf, num b => if 0 ≤ b then negInf else posInf
  | num _, posInf => num 0
  | num _, negInf => num 0
  | num a, num b =>
      if b = 0 then (if a = 0 then nan else if 0 < a then posInf else negInf)
      else num (a / b)

/-- JavaScript `x > 0` (comparisons with `NaN` are false). -/
def gtZero : JSNum → Bool
  | num q => 0 < q
  | posInf => true
  | negInf => false
  | nan => false

/-- JavaScript unary minus. -/
def neg : JSNum → JSNum
  | num q => num (-q)
  | posInf => negInf
  | negInf => posInf
  | nan => nan

/-- JavaScript `isNaN` (on a number operand). -/
def isNaNb : JSNum → Bool
  | nan => true
  | _ => false

end JSNum

/-- JavaScript `Math.round`: round half toward positive infinity. -/
def jsRound (q : ℚ) : ℤ := ⌊q + 1/2⌋

/-! ### `Number(string)` — the string-to-number coercion

Transcribed from the ECMAScript `StringNumericLiteral` grammar: the trimmed
string is empty (= 0), an optionally signed decimal literal (digits with an
optional fraction part and an optional exponent, or `Infinity`), or an
unsigned hex/octal/binary literal; everything else is `NaN`. -/

/-- `0x`/`0o`/`0b` radix tag at the head of a string, with the payload. -/
def radixTag (s : List Char) : Option (ℕ × List Char) :=
  match s with
  | c0 :: c1 :: r =>
      if c0 = '0' then
        if c1 = 'x' ∨ c1 = 'X' then some (16, r)
        else if c1 = 'o' ∨ c1 = 'O' then some (8, r)
        else if c1 = 'b' ∨ c1 = 'B' then some (2, r)
        else none
      else none
  | _ => none

def isRadixDig (base : ℕ) (c : Char) : Bool :=
  if base = 16 then
    isDig c ∨ ('a' ≤ c ∧ c ≤ 'f') ∨ ('A' ≤ c ∧ c ≤ 'F')
  else if base = 8 then '0' ≤ c ∧ c ≤ '7'
  else c = '0' ∨ c = '1'

def radixDigVal (c : Char) : ℕ :=
  if 'a' ≤ c ∧ c ≤ 'f' then c.toNat - 87
  else if 'A' ≤ c ∧ c ≤ 'F' then c.toNat - 55
  else digVal c

def radixVal (base : ℕ) (s : List Char) : ℕ :=
  s.foldl (fun a c => base * a + radixDigVal c) 0

/-- The exponent suffix `[eE][+-]?\d+` (or nothing); `none` when the tail is
neither empty nor a well-formed exponent. -/
def expSuffix (s : List Char) : Option ℤ :=
  match s with
  | [] => some 0
  | c :: r =>
      if c = 'e' ∨ c = 'E' then
        let (sgn, r') : ℤ × List Char :=
          if r.head? = some '+' then (1, r.tail)
          else if r.head? = some '-' then (-1, r.tail)
          else (1, r)
        let (d, rest) := spanDig r'
        if d ≠ [] ∧ rest = [] then some (sgn * (natVal d : ℤ)) else none
      else none

/-- An unsigned decimal literal `d+('.'d*)? | '.'d+`, with optional exponent;
`NaN` when the string is not of that shape. -/
def decLit (s : List Char) : JSNum :=
  let (d1, r1) := spanDig s
  if r1.head? = some '.' then
    let (d2, r3) := spanDig r1.tail
    if d1 = [] ∧ d2 = [] then .nan
    else
      match expSuffix r3 with
      | some e => .num (((natVal d1 : ℚ) + (natVal d2 : ℚ) / 10 ^ d2.length) * 10 ^ e)
      | none => .nan
  else
    if d1 = [] then .nan
    else
      match expSuffix r1 with
      | some e => .num ((natVal d1 : ℚ) * 10 ^ e)
      | none => .nan

/-- An unsigned decimal literal or `Infinity`. -/
def unsignedDec (s : List Char) : JSNum :=
  if s = "Infinity".data then .posInf else decLit s

/-- An optionally signed decimal literal. -/
def signedDec (s : List Char) : JSNum :=
  if s.head? = some '+' then unsignedDec s.tail
  else if s.head? = some '-' then (unsignedDec s.tail).neg
  else unsignedDec s

/-- JavaScript `Number(string)`. -/
def jsNumber (s0 : List Char) : JSNum :=
  let s := jsTrim s0
  if s = [] then .num 0
  else
    match radixTag s with
    | some (base, r) =>
        if r ≠ [] ∧ (∀ c ∈ r, isRadixDig base c = true) then .num (radixVal base r)
        else .nan
    | none => signedDec s

/-! ### `Number` on canonical digit strings -/

theorem isDig_val {c : Char} (h : isDig c = true) :
    48 ≤ c.toNat ∧ c.toNat ≤ 57 := by
  simp only [isDig, decide_eq_true_eq, Bool.and_eq_true] at h
  exact ⟨h.1, h.2⟩

theorem isDig_ne {c : Char} (h : isDig c = true) {d : Char}
    (hd : d.toNat < 48 ∨ 57 < d.toNat) : c ≠ d := by
  intro he
  have := isDig_val h
  subst he
  omega

theorem radixTag_of_digits {s : List Char} (h : ∀ c ∈ s, isDig c = true) :
    radixTag s = none := by
  match s with
  | [] => rfl
  | [c] => rfl
  | c0 :: c1 :: r =>
      have h1 : isDig c1 = true := h c1 (by simp)
      show (if c0 = '0' then _ else none) = none
      by_cases hc0 : c0 = '0'
      · have hx : ¬(c1 = 'x' ∨ c1 = 'X') := by
          rintro (rfl | rfl) <;> (revert h1; decide)
        have ho : ¬(c1 = 'o' ∨ c1 = 'O') := by
          rintro (rfl | rfl) <;> (revert h1; decide)
        have hb : ¬(c1 = 'b' ∨ c1 = 'B') := by
          rintro (rfl | rfl) <;> (revert h1; decide)
        simp [hc0, hx, ho, hb]
      · simp [hc0]

theorem digits_ne_infinity {s : List Char} (h : ∀ c ∈ s, isDig c = true) :
    s ≠ "Infinity".data := by
  intro heq
  have : ('I' : Char) ∈ s := by rw [heq]; decide
  have := h 'I' this
  revert this
  decide

/-- `Number` of a non-empty all-digit string is its decimal value. -/
theorem jsNumber_digits {s : List Char} (hne : s ≠ [])
    (h : ∀ c ∈ s, isDig c = true) : jsNumber s = .num (natVal s) := by
  have htrim : jsTrim s = s := jsTrim_of_no_ws (fun c hc => digits_not_ws (h c hc))
  unfold jsNumber
  simp only [htrim, if_neg hne, radixTag_of_digits h]
  show signedDec s = .num (natVal s)
  match s, hne with
  | c :: cs, _ =>
      have hc := h c (by simp)
      have hplus : (c :: cs).head? ≠ some '+' := by
        simp only [List.head?]
        intro he
        have hce : c = '+' := by injection he
        exact isDig_ne hc (d := '+') (by decide) hce
      have hminus : (c :: cs).head? ≠ some '-' := by
        simp only [List.head?]
        intro he
        have hce : c = '-' := by injection he
        exact isDig_ne hc (d := '-') (by decide) hce
      unfold signedDec
      rw [if_neg hplus, if_neg hminus]
      unfold unsignedDec
      rw [if_neg (digits_ne_infinity h)]
      unfold decLit
      rw [spanDig_all h]
      simp only [List.head?_nil]
      rw [if_neg (by simp)]
      rw [if_neg (by simp)]
      show (match expSuffix [] with
        | some e => JSNum.num ((natVal (c :: cs) : ℚ) * 10 ^ e)
        | none => JSNum.nan) = .num (natVal (c :: cs))
      have he : expSuffix ([] : List Char) = some 0 := rfl
      rw [he]
      norm_num

/-- `Number` of a canonical decimal string `d1 ++ "." ++ d2` with `d1`
non-empty digits and `d2` digits. -/
theorem jsNumber_decimal {d1 d2 : List Char} (h1ne : d1 ≠ [])
    (h1 : ∀ c ∈ d1, isDig c = true) (h2 : ∀ c ∈ d2, isDig c = true) :
    jsNumber (d1 ++ '.' :: d2) =
      .num ((natVal d1 : ℚ) + (natVal d2 : ℚ) / 10 ^ d2.length) := by
  have hdot : isDig '.' = false := by decide
  have hmem : ∀ c ∈ d1 ++ '.' :: d2, isWsJs c = false := by
    intro c hc
    rcases List.mem_append.1 hc with h | h
    · exact digits_not_ws (h1 c h)
    · rcases List.mem_cons.1 h with rfl | h
      · decide
      · exact digits_not_ws (h2 c h)
  have htrim := jsTrim_of_no_ws hmem
  have hradix : radixTag (d1 ++ '.' :: d2) = none := by
    match d1, h1ne with
    | [c], _ =>
        show radixTag (c :: '.' :: d2) = none
        have hc := h1 c (by simp)
        show (if c = '0' then _ else none) = none
        by_cases hc0 : c = '0'
        · simp [hc0]
        · simp [hc0]
    | c0 :: c1 :: r, _ =>
        show radixTag (c0 :: c1 :: (r ++ '.' :: d2)) = none
        have hcd : isDig c1 = true := h1 c1 (by simp)
        show (if c0 = '0' then _ else none) = none
        by_cases hc0 : c0 = '0'
        · have hx : ¬(c1 = 'x' ∨ c1 = 'X') := by
            rintro (rfl | rfl) <;> (revert hcd; decide)
          have ho : ¬(c1 = 'o' ∨ c1 = 'O') := by
            rintro (rfl | rfl) <;> (revert hcd; decide)
          have hb : ¬(c1 = 'b' ∨ c1 = 'B') := by
            rintro (rfl | rfl) <;> (revert hcd; decide)
          simp [hc0, hx, ho, hb]
        · simp [hc0]
  have hne : d1 ++ '.' :: d2 ≠ [] := by simp
  unfold jsNumber
  simp only [htrim, if_neg hne, hradix]
  show signedDec (d1 ++ '.' :: d2) = _
  match d1, h1ne with
  | c :: cs, _ =>
      have hc := h1 c (by simp)
      have hspan : spanDig ((c :: cs) ++ '.' :: d2) = (c :: cs, '.' :: d2) :=
        spanDig_split h1 hdot
      have hplus : ((c :: cs) ++ '.' :: d2).head? ≠ some '+' := by
        simp only [List.cons_append, List.head?]
        intro he
        have hce : c = '+' := by injection he
        exact isDig_ne hc (d := '+') (by decide) hce
      have hminus : ((c :: cs) ++ '.' :: d2).head? ≠ some '-' := by
        simp only [List.cons_append, List.head?]
        intro he
        have hce : c = '-' := by injection he
        exact isDig_ne hc (d := '-') (by decide) hce
      have hinf : (c :: cs) ++ '.' :: d2 ≠ "Infinity".data := by
        intro he
        have : ('.' : Char) ∈ "Infinity".data := by
          rw [← he]; exact List.mem_append.2 (Or.inr (by simp))
        revert this
        decide
      unfold signedDec
      rw [if_neg hplus, if_neg hminus]
      unfold unsignedDec
      rw [if_neg hinf]
      unfold decLit
      rw [hspan]
      simp only []
      rw [if_pos (show ('.' :: d2 : List Char).head? = some '.' from rfl)]
      rw [show ('.' :: d2 : List Char).tail = d2 from rfl, spanDig_all h2]
      simp only []
      rw [if_neg (by simp)]
      show (match expSuffix [] with
        | some e => JSNum.num (((natVal (c :: cs) : ℚ) + (natVal d2 : ℚ) / 10 ^ d2.length) * 10 ^ e)
        | none => JSNum.nan) = _
      have he : expSuffix ([] : List Char) = some 0 := rfl
      rw [he]
      norm_num

/-! ### The shared amount utility — `parseAmount` (part_005, lines 3–45)

`frontend/src/…` shared utility: lowercases and trims, tries a two-part
mixed number, then a simple fraction (both requiring finite parts and a
non-zero denominator), then a plain `Number` conversion, and falls back
to 0.  Out-of-range array indexing in JavaScript yields `undefined`, whose
numeric coercion is `NaN`; no operation in the function throws. -/

def undefNum : Option (List Char) → JSNum
  | some d => jsNumber d
  | none => .nan

def parseAmount005 (s0 : List Char) : JSNum :=
  if s0.isEmpty then .num 0
  else
    let s := lowerStr (jsTrim s0)
    if s.isEmpty then .num 0
    else
      let mixedRes : Option JSNum :=
        if s.contains ' ' then
          let parts := (splitCh ' ' s).filter (fun p => !p.isEmpty)
          if parts.length == 2 && (parts.getD 1 []).contains '/' then
            let whole := jsNumber (parts.headD [])
            let fr := splitCh '/' (parts.getD 1 [])
            let num := jsNumber (fr.headD [])
            let den := undefNum fr.tail.head?
            if !whole.isNaNb && !num.isNaNb && !den.isNaNb && !(den == JSNum.num 0) then
              some (whole.add (num.div den))
            else none
          else none
        else none
      match mixedRes with
      | some v => v
      | none =>
          let fracRes : Option JSNum :=
            if s.contains '/' then
              let fr := splitCh '/' s
              let num := jsNumber (fr.headD [])
              let den := undefNum fr.tail.head?
              if !num.isNaNb && !den.isNaNb && !(den == JSNum.num 0) then
                some (num.div den)
              else none
            else none
          match fracRes with
          | some v => v
          | none =>
              let val := jsNumber s
              if val.isNaNb then .num 0 else val

/-! ### The DetailsPage-local `parseAmount` (part_003, lines 138–162)

Anchored regex tests pick the branch.  `/^\d+\s+\d+\/\d+$/` and
`/^\d+\/\d+$/` are decided by maximal-run scanning (each boundary separates
disjoint character classes, so the backtracking regex engine's answer
coincides with the greedy one).  In the mixed branch the source splits on
the space character only; if the regex matched via non-space whitespace the
destructured `frac` is `undefined` and `frac.split` throws — modelled as
`Except.error`. -/

/-- `/^\d+\/\d+$/`. -/
def isSimpleFrac (s : List Char) : Bool :=
  let (d1, r1) := spanDig s
  !d1.isEmpty && r1.head? == some '/' &&
    (let (d2, r2) := spanDig r1.tail
     !d2.isEmpty && r2.isEmpty)

/-- `/^\d+\s+\d+\/\d+$/`. -/
def isMixedNum (s : List Char) : Bool :=
  let (d1, r1) := spanDig s
  let (w, r2) := spanWs r1
  let (d2, r3) := spanDig r2
  !d1.isEmpty && !w.isEmpty && !d2.isEmpty && r3.head? == some '/' &&
    (let (d3, r4) := spanDig r3.tail
     !d3.isEmpty && r4.isEmpty)

def parseAmount003 (s0 : List Char) : Except Unit JSNum :=
  if s0.isEmpty then .ok (.num 0)
  else
    let s := jsTrim s0
    if s.isEmpty || containsSub ("to taste".data) (lowerStr s) then .ok (.num 0)
    else if isMixedNum s then
      match splitCh ' ' s with
      | whole :: frac :: _ =>
          let fr := splitCh '/' frac
          let num := undefNum fr.head?
          let den := undefNum fr.tail.head?
          .ok ((jsNumber whole).add (num.div den))
      | _ => .error ()
    else if isSimpleFrac s then
      let fr := splitCh '/' s
      let num := undefNum fr.head?
      let den := undefNum fr.tail.head?
      .ok (num.div den)
    else
      let n := jsNumber s
      if n.isNaNb then .ok (.num 0) else .ok n

/-! ### The DetailsPage-local `formatAmount` (part_003, lines 164–174) -/

/-- The common-fraction table, in the source's insertion order, with the
decimal keys as written there and the rendered fraction strings. -/
def commonFracs : List (ℚ × List Char) :=
  [(125/1000, "1/8".data), (25/100, "1/4".data),
   (3333333333/10000000000, "1/3".data), (5/10, "1/2".data),
   (6666666667/10000000000, "2/3".data), (75/100, "3/4".data),
   (875/1000, "7/8".data)]

/-- The loop over the table: the first key within 0.02 wins. -/
def findFrac (q : ℚ) : List (ℚ × List Char) → Option (List Char)
  | [] => none
  | (k, v) :: rest => if |q - k| < 2/100 then some v else findFrac q rest

/-- JavaScript `String(n)` for an integer-valued number. -/
def intStrZ (k : ℤ) : List Char :=
  if k < 0 then '-' :: natStr (-k).toNat else natStr k.toNat

def natTenth (m : ℕ) : List Char := natStr (m / 10) ++ '.' :: [digCh (m % 10)]

/-- JavaScript `String(k/10)` for an integer `k` (the value
`Math.round(n*10)/10` of the one-decimal fallback). -/
def tenthStr (k : ℤ) : List Char :=
  if k % 10 = 0 then intStrZ (k / 10)
  else if k < 0 then '-' :: natTenth (-k).toNat
  else natTenth k.toNat

def formatAmount003 : JSNum → List Char
  | .num q =>
      if q = 0 then ['0']
      else if q.den = 1 then intStrZ q.num
      else
        match findFrac q commonFracs with
        | some v => v
        | none => tenthStr (jsRound (q * 10))
  | .posInf => "Infinity".data
  | .negInf => "-Infinity".data
  | .nan => "NaN".data

/-! ### Ingredient normalization and local scaling (part_003, lines 176–222) -/

/-- An ingredient record `{ name, amount/amountStr, unit }`. -/
structure Ing where
  name : List Char
  amount : List Char
  unit : List Char
  deriving DecidableEq, Repr

/-- A raw ingredient item as received by `normalize`: either a free string or
an object from the backend. -/
inductive RawItem where
  | str (s : List Char)
  | obj (name amount unit : List Char)
  deriving DecidableEq, Repr

/-- `.*` of the anchored regexes: any characters except line terminators. -/
def noNL (s : List Char) : Bool := s.all (fun c => !(c = '\n' ∨ c = '\r'))

/-- The continuation `\s*([a-zA-Z]+)?\s+(.*)$` of the leading-amount regex,
with the backtracking order of the JavaScript engine resolved: a letter run
directly after the whitespace and itself followed by whitespace becomes the
unit group, otherwise the unit is absent and at least one whitespace
character must precede the name. -/
def unitAndName (r : List Char) : Option (List Char × List Char) :=
  let (w, t) := spanWs r
  let (l, u) := spanAlpha t
  let (w2, rest) := spanWs u
  if !l.isEmpty && !w2.isEmpty && noNL rest then some (l, rest)
  else if !w.isEmpty && noNL t then some ([], t)
  else none

/-- The optional `(?:\s+\d+\/\d+|\/\d+|\.\d+)?` extension of the amount
group.  The three alternatives are mutually exclusive on their first
character; if the chosen alternative's continuation fails the engine
backtracks to the empty extension (handled by the caller). -/
def amountExt (r : List Char) : Option (List Char × List Char) :=
  match r.head? with
  | some c =>
      if isWsJs c then
        let (w, r1) := spanWs r
        let (d2, r2) := spanDig r1
        if !d2.isEmpty && r2.head? == some '/' then
          let (d3, r3) := spanDig r2.tail
          if !d3.isEmpty then some (w ++ d2 ++ '/' :: d3, r3) else none
        else none
      else if c = '/' then
        let (d, r1) := spanDig r.tail
        if !d.isEmpty then some ('/' :: d, r1) else none
      else if c = '.' then
        let (d, r1) := spanDig r.tail
        if !d.isEmpty then some ('.' :: d, r1) else none
      else none
  | none => none

/-- The source's leading-amount regex
`/^\s*(\d+(?:\s+\d+\/\d+|\/\d+|\.\d+)?)\s*([a-zA-Z]+)?\s+(.*)$/` as a
deterministic matcher returning (amount, unit, name). -/
def leadingAmount (s : List Char) : Option (List Char × List Char × List Char) :=
  let (_, t) := spanWs s
  let (d, r) := spanDig t
  if d.isEmpty then none
  else
    match amountExt r with
    | some (ext, r1) =>
        match unitAndName r1 with
        | some (u, nm) => some (d ++ ext, u, nm)
        | none =>
            match unitAndName r with
            | some (u, nm) => some (d, u, nm)
            | none => none
    | none =>
        match unitAndName r with
        | some (u, nm) => some (d, u, nm)
        | none => none

/-- `adjustIngredientsLocally`'s `normalize` helper (lines 178–209): a single
comma-joined string is split; falsy (empty) string items are skipped; object
items pass through with a trimmed name; other strings are matched against the
leading-amount regex, the whole string becoming the name on failure. -/
def normalizeItems (raw : List RawItem) : List Ing :=
  let items : List RawItem :=
    match raw with
    | [RawItem.str s] =>
        if s.contains ',' then (splitCh ',' s).map RawItem.str else raw
    | _ => raw
  items.foldr (fun it acc =>
    match it with
    | .obj n a u => ⟨jsTrim n, a, u⟩ :: acc
    | .str s =>
        if s.isEmpty then acc
        else
          let t := jsTrim s
          match leadingAmount t with
          | some (amt, u, nm) => ⟨jsTrim nm, jsTrim amt, jsTrim u⟩ :: acc
          | none => ⟨jsTrim t, [], []⟩ :: acc) []

/-- `originalServings || 1`. -/
def orOne (q : ℚ) : ℚ := if q = 0 then 1 else q

/-- part_003 lines 176–222, `adjustIngredientsLocally`: normalizes, parses
each amount, scales positive amounts by `desired / original` and reformats
them, and blanks the amount and unit otherwise.  A thrown parse error
propagates to the caller. -/
def scaleIng (originalServings desiredServings : ℚ) (ing : Ing) :
    Except Unit Ing :=
  match parseAmount003 ing.amount with
  | .error e => .error e
  | .ok parsed =>
      if parsed.gtZero then
        let perServing := parsed.div (.num (orOne originalServings))
        let adjusted := perServing.mul (.num desiredServings)
        .ok ⟨ing.name, formatAmount003 adjusted, ing.unit⟩
      else .ok ⟨ing.name, [], []⟩

/-- `.map` over the normalized list, with a thrown parse error aborting the
whole call (JavaScript evaluates the callback left to right). -/
def mapScale (f : Ing → Except Unit Ing) : List Ing → Except Unit (List Ing)
  | [] => .ok []
  | x :: xs =>
      match f x with
      | .error e => .error e
      | .ok y =>
          match mapScale f xs with
          | .error e => .error e
          | .ok ys => .ok (y :: ys)

def adjustIngredientsLocally (ingredients : List RawItem)
    (originalServings desiredServings : ℚ) : Except Unit (List Ing) :=
  let normalized := normalizeItems ingredients
  mapScale (scaleIng originalServings desiredServings) normalized

/-! ### `handleServingsChange` (part_003, lines 224–270) -/

structure Nutrition where
  calories : ℚ
  protein : ℚ
  carbs : ℚ
  fat : ℚ
  deriving DecidableEq, Repr

/-- The recipe fields read or written by `handleServingsChange`.  A zero in
`servings`/`original_servings`/`adjusted_servings` models a missing or falsy
value. -/
structure Recipe003 where
  servings : ℚ
  original_servings : ℚ
  adjusted_servings : ℚ
  calories : ℚ
  protein : ℚ
  carbs : ℚ
  fat : ℚ
  ingredients : List RawItem
  deriving DecidableEq, Repr

/-- The component state touched by `handleServingsChange`: the servings
counter, the displayed recipe, and the never-mutated originals. -/
structure DState where
  servings : ℚ
  recipe : Recipe003
  originalIngredients : Option (List RawItem)
  originalNutrition : Option Nutrition
  deriving DecidableEq, Repr

/-- The observable outcome of a `handleServingsChange` call.  `raised` is the
channel an error surfaced to the caller would use (the specification's
`InvalidServingCountError`); the transcription shows which branches the code
actually takes. -/
inductive SCOutcome where
  | raised (msg : List Char)
  | noChange
  | localUpdate (st : DState)
  | backendFetch (st : DState) (target : ℚ)
  deriving DecidableEq, Repr

/-- `x || 4`. -/
def orFour (q : ℚ) : ℚ := if q = 0 then 4 else q

def handleServingsChange (st : DState) (newServings : ℚ) : SCOutcome :=
  if newServings < 1 then .noChange
  else
    let st1 := { st with servings := newServings }
    let original : ℚ :=
      if st.recipe.original_servings ≠ 0 then st.recipe.original_servings
      else orFour st.recipe.servings
    if 2 ≤ newServings ∧ newServings ≤ 7 then
      let source := st.originalIngredients.getD st.recipe.ingredients
      match adjustIngredientsLocally source original newServings with
      | .error _ => .localUpdate st1
      | .ok adjusted =>
          let orig := st.originalNutrition.getD
            ⟨st.recipe.calories, st.recipe.protein, st.recipe.carbs, st.recipe.fat⟩
          let multiplier := newServings / orOne original
          .localUpdate { st1 with recipe :=
            { st1.recipe with
                ingredients := adjusted.map (fun i => RawItem.obj i.name i.amount i.unit)
                adjusted_servings := newServings
                original_servings := original
                calories := (jsRound (orig.calories * multiplier) : ℚ)
                protein := (jsRound (orig.protein * multiplier) : ℚ)
                carbs := (jsRound (orig.carbs * multiplier) : ℚ)
                fat := (jsRound (orig.fat * multiplier) : ℚ) } }
    else .backendFetch st1 newServings

/-! ### `DetailsPage.tsx` nutrition display (frontend/src, lines 111–148) -/

/-- The recipe fields the frontend `DetailsPage` nutrition display reads; a
zero models a missing/falsy `original_servings`. -/
structure FRecipe where
  servings : ℚ
  original_servings : ℚ
  calories : ℚ
  protein : ℚ
  carbs : ℚ
  fat : ℚ
  deriving DecidableEq, Repr

/-- Line 111: `servings / (currentRecipe.original_servings || currentRecipe.servings)`. -/
def servingMultiplier (r : FRecipe) (servings : ℚ) : ℚ :=
  servings / (if r.original_servings = 0 then r.servings else r.original_servings)

/-- Lines 119–148: the four displayed values, `Math.round(field * multiplier)`. -/
def nutritionValues (r : FRecipe) (servings : ℚ) : Nutrition :=
  let m := servingMultiplier r servings
  ⟨(jsRound (r.calories * m) : ℚ), (jsRound (r.protein * m) : ℚ),
    (jsRound (r.carbs * m) : ℚ), (jsRound (r.fat * m) : ℚ)⟩

/-! ### `ResultsPage.tsx` result filtering (lines 11–35) -/

/-- The recipe fields the results filter reads. -/
structure SRecipe where
  dietary_tags : List (List Char)
  difficulty : List Char
  cooking_time : ℚ
  cuisine : List Char
  deriving DecidableEq, Repr

/-- The filter panel state; an empty list/string is the falsy "no
constraint". -/
structure Filters where
  dietary : List (List Char)
  difficulty : List Char
  cookingTime : List Char
  cuisine : List Char
  deriving DecidableEq, Repr

/-- The `searchResults.filter` predicate of `ResultsPage` (lines 11–35): a
non-empty dietary list keeps a recipe when SOME requested tag is among its
`dietary_tags`; difficulty and cuisine are exact matches when set; the
cooking-time buckets are `Quick` (< 30), `Moderate` (30–60), `Long` (> 60). -/
def recipePasses (f : Filters) (r : SRecipe) : Bool :=
  if !f.dietary.isEmpty && !(f.dietary.any (fun p => r.dietary_tags.contains p)) then
    false
  else if !f.difficulty.isEmpty && decide (r.difficulty ≠ f.difficulty) then false
  else if decide (f.cookingTime = "Quick".data) && decide (30 ≤ r.cooking_time) then
    false
  else if decide (f.cookingTime = "Moderate".data) &&
      (decide (r.cooking_time < 30) || decide (60 < r.cooking_time)) then false
  else if decide (f.cookingTime = "Long".data) && decide (r.cooking_time ≤ 60) then
    false
  else if !f.cuisine.isEmpty && decide (r.cuisine ≠ f.cuisine) then false
  else true

def filteredRecipes (f : Filters) (rs : List SRecipe) : List SRecipe :=
  rs.filter (recipePasses f)

/-! ### `HomePage.tsx` (`InputPage`) ingredient entry (lines 162–167) -/

/-- `addIngredient`: the state is the token list and the text box; a trimmed,
non-empty input not already present (exact string comparison) is appended and
the box cleared; otherwise nothing changes. -/
def addIngredient (ingredients : List (List Char)) (currentInput : List Char) :
    List (List Char) × List Char :=
  let t := jsTrim currentInput
  if !t.isEmpty && !ingredients.contains t then (ingredients ++ [t], [])
  else (ingredients, currentInput)

/-! ### The specification's four numeric amount forms -/

/-- Modelled from the spec: the four recognized numeric amount forms —
integers ("2"), decimals ("1.5"), simple fractions ("1/2") and mixed numbers
("1 1/2") — together with the numeric value each denotes.  This is the
claim-side grammar the parser theorems quantify over. -/
def fourFormVal (s : List Char) : Option ℚ :=
  let (d1, r1) := spanDig s
  if d1.isEmpty then none
  else
    match r1 with
    | [] => some (natVal d1)
    | c :: r2 =>
        if c = '.' then
          let (d2, r3) := spanDig r2
          if !d2.isEmpty && r3.isEmpty then
            some ((natVal d1 : ℚ) + (natVal d2 : ℚ) / 10 ^ d2.length)
          else none
        else if c = '/' then
          let (d2, r3) := spanDig r2
          if !d2.isEmpty && r3.isEmpty && decide (natVal d2 ≠ 0) then
            some ((natVal d1 : ℚ) / (natVal d2 : ℚ))
          else none
        else if c = ' ' then
          let (d2, r3) := spanDig r2
          match r3 with
          | c2 :: r4 =>
              if c2 = '/' then
                let (d3, r5) := spanDig r4
                if !d2.isEmpty && !d3.isEmpty && r5.isEmpty && decide (natVal d3 ≠ 0) then
                  some ((natVal d1 : ℚ) + (natVal d2 : ℚ) / (natVal d3 : ℚ))
                else none
              else none
          | [] => none
        else none

/-! ### Further string lemmas -/

theorem splitCh_of_not_mem {sep : Char} {s : List Char} (h : sep ∉ s) :
    splitCh sep s = [s] := by
  induction s with
  | nil => rfl
  | cons c cs ih =>
      have hc : c ≠ sep := fun he => h (he ▸ List.mem_cons_self c cs)
      have hcs : sep ∉ cs := fun hm => h (List.mem_cons_of_mem c hm)
      simp [splitCh, hc, ih hcs]

theorem splitCh_append_sep {sep : Char} {xs ys : List Char} (h : sep ∉ xs) :
    splitCh sep (xs ++ sep :: ys) = xs :: splitCh sep ys := by
  induction xs with
  | nil => simp [splitCh]
  | cons c cs ih =>
      have hc : c ≠ sep := fun he => h (he ▸ List.mem_cons_self c cs)
      have hcs : sep ∉ cs := fun hm => h (List.mem_cons_of_mem c hm)
      have hne : splitCh sep (cs ++ sep :: ys) = cs :: splitCh sep ys := ih hcs
      simp only [List.cons_append, splitCh, if_neg hc]
      rw [show cs.append (sep :: ys) = cs ++ sep :: ys from rfl, hne]

theorem splitCh_ne_nil (sep : Char) (s : List Char) : splitCh sep s ≠ [] := by
  cases s with
  | nil => simp [splitCh]
  | cons c cs =>
      simp only [splitCh]
      by_cases h : c = sep
      · simp [h]
      · simp only [if_neg h]
        cases hs : splitCh sep cs with
        | nil => simp
        | cons a as => simp

theorem contains_eq_false_of_not_mem {α : Type} [BEq α] [LawfulBEq α]
    {s : List α} {c : α} (h : c ∉ s) : s.contains c = false := by
  cases hc : s.contains c
  · rfl
  · exact absurd (by simpa [List.contains] using hc) h

theorem contains_eq_true_of_mem {α : Type} [BEq α] [LawfulBEq α]
    {s : List α} {c : α} (h : c ∈ s) : s.contains c = true := by
  simpa [List.contains] using h

/-- Trimming only looks at the two ends of the string. -/
theorem jsTrim_of_ends {c : Char} {cs : List Char} {d : Char}
    (h1 : isWsJs c = false) (h2 : (c :: cs).getLast? = some d)
    (h3 : isWsJs d = false) : jsTrim (c :: cs) = c :: cs := by
  unfold jsTrim
  rw [show (c :: cs).dropWhile isWsJs = c :: cs by simp [List.dropWhile, h1]]
  have hrev : (c :: cs).reverse.head? = some d := by
    rw [List.head?_reverse]; exact h2
  have : (c :: cs).reverse.dropWhile isWsJs = (c :: cs).reverse := by
    cases hr : (c :: cs).reverse with
    | nil => rfl
    | cons a as =>
        have : a = d := by
          rw [hr] at hrev
          injection hrev
        simp [List.dropWhile, this, h3]
  rw [this, List.reverse_reverse]

theorem lowerStr_of_no_upper {s : List Char}
    (h : ∀ c ∈ s, ¬('A' ≤ c ∧ c ≤ 'Z')) : lowerStr s = s := by
  unfold lowerStr
  induction s with
  | nil => rfl
  | cons c cs ih =>
      rw [List.map_cons, lowerCh_of_not_upper (h c (by simp)),
        ih (fun x hx => h x (by simp [hx]))]

theorem isDig_not_upper {c : Char} (h : isDig c = true) :
    ¬('A' ≤ c ∧ c ≤ 'Z') := by
  have := isDig_val h
  rintro ⟨h1, h2⟩
  have hA : (65 : ℕ) ≤ c.toNat := h1
  omega

/-! ### JSNum arithmetic on finite values -/

theorem jsdiv_num {a b : ℚ} (hb : b ≠ 0) :
    (JSNum.num a).div (JSNum.num b) = .num (a / b) := by
  simp [JSNum.div, hb]

theorem jsmul_num (a b : ℚ) :
    (JSNum.num a).mul (JSNum.num b) = .num (a * b) := rfl

theorem jsadd_num (a b : ℚ) :
    (JSNum.num a).add (JSNum.num b) = .num (a + b) := rfl

theorem gtZero_num {q : ℚ} : (JSNum.num q).gtZero = true ↔ 0 < q := by
  simp [JSNum.gtZero]

theorem isNaNb_num (q : ℚ) : (JSNum.num q).isNaNb = false := rfl

/-- `Math.round` is within a half of its argument. -/
theorem jsRound_close (q : ℚ) : |(jsRound q : ℚ) - q| ≤ 1/2 := by
  unfold jsRound
  have h1 : (⌊q + 1/2⌋ : ℚ) ≤ q + 1/2 := Int.floor_le _
  have h2 : q + 1/2 < (⌊q + 1/2⌋ : ℚ) + 1 := Int.lt_floor_add_one _
  rw [abs_le]
  constructor <;> linarith

theorem jsRound_nonneg {q : ℚ} (h : 0 ≤ q) : 0 ≤ jsRound q := by
  unfold jsRound
  have : (0 : ℚ) ≤ q + 1/2 := by linarith
  exact_mod_cast Int.floor_nonneg.2 this

/-! ### Evaluating the local `parseAmount` on canonical strings -/

theorem isEmpty_false_of_ne_nil {α : Type} {s : List α} (h : s ≠ []) :
    s.isEmpty = false := by
  cases s with
  | nil => exact absurd rfl h
  | cons c cs => rfl

theorem isDig_ne_t {c : Char} (h : isDig c = true) : c ≠ 't' :=
  isDig_ne h (by decide)

theorem isMixedNum_false {s d r : List Char} (hs : spanDig s = (d, r))
    (hr : ∀ c, r.head? = some c → isWsJs c = false) : isMixedNum s = false := by
  unfold isMixedNum
  rw [hs]
  have hw : spanWs r = ([], r) := by
    cases r with
    | nil => rfl
    | cons c cs => simp [spanWs, hr c rfl]
  simp only []
  rw [hw]
  simp

theorem isSimpleFrac_false {s d r : List Char} (hs : spanDig s = (d, r))
    (hr : r.head? ≠ some '/') : isSimpleFrac s = false := by
  unfold isSimpleFrac
  rw [hs]
  simp only [Bool.and_eq_false_imp, Bool.and_eq_true]
  cases hh : r.head? with
  | none => simp
  | some c =>
      have : c ≠ '/' := fun he => hr (by rw [hh, he])
      simp [this]

/-- The local parser on a non-empty all-digit string. -/
theorem parse003_digits {d : List Char} (hne : d ≠ [])
    (hd : ∀ c ∈ d, isDig c = true) :
    parseAmount003 d = .ok (.num (natVal d)) := by
  have htrim : jsTrim d = d := jsTrim_of_no_ws (fun c hc => digits_not_ws (hd c hc))
  have hlow : lowerStr d = d := lowerStr_of_no_upper (fun c hc => isDig_not_upper (hd c hc))
  have htaste : containsSub ("to taste".data) (lowerStr d) = false := by
    rw [hlow]
    exact containsSub_to_taste_false (fun hm => isDig_ne_t (hd 't' hm) rfl)
  have hspan : spanDig d = (d, []) := spanDig_all hd
  have hmix : isMixedNum d = false := isMixedNum_false hspan (by simp)
  have hfrac : isSimpleFrac d = false := isSimpleFrac_false hspan (by simp)
  unfold parseAmount003
  rw [isEmpty_false_of_ne_nil hne]
  simp only [Bool.false_eq_true, if_false]
  rw [htrim, isEmpty_false_of_ne_nil hne, htaste]
  simp only [Bool.or_self, Bool.false_eq_true, if_false]
  rw [hmix, hfrac]
  simp only [Bool.false_eq_true, if_false]
  rw [jsNumber_digits hne hd]
  rfl

/-- The local parser on a canonical decimal string `d1 ++ "." ++ d2`. -/
theorem parse003_decimal {d1 d2 : List Char} (h1ne : d1 ≠ [])
    (h1 : ∀ c ∈ d1, isDig c = true) (h2 : ∀ c ∈ d2, isDig c = true) :
    parseAmount003 (d1 ++ '.' :: d2) =
      .ok (.num ((natVal d1 : ℚ) + (natVal d2 : ℚ) / 10 ^ d2.length)) := by
  have hall : ∀ c ∈ d1 ++ '.' :: d2, isDig c = true ∨ c = '.' := by
    intro c hc
    rcases List.mem_append.1 hc with h | h
    · exact Or.inl (h1 c h)
    · rcases List.mem_cons.1 h with rfl | h
      · exact Or.inr rfl
      · exact Or.inl (h2 c h)
  have hne : d1 ++ '.' :: d2 ≠ [] := by simp
  have htrim : jsTrim (d1 ++ '.' :: d2) = d1 ++ '.' :: d2 := by
    apply jsTrim_of_no_ws
    intro c hc
    rcases hall c hc with h | rfl
    · exact digits_not_ws h
    · decide
  have hlow : lowerStr (d1 ++ '.' :: d2) = d1 ++ '.' :: d2 := by
    apply lowerStr_of_no_upper
    intro c hc
    rcases hall c hc with h | rfl
    · exact isDig_not_upper h
    · decide
  have htaste : containsSub ("to taste".data) (lowerStr (d1 ++ '.' :: d2)) = false := by
    rw [hlow]
    apply containsSub_to_taste_false
    intro hm
    rcases hall 't' hm with h | h
    · exact isDig_ne_t h rfl
    · exact absurd h (by decide)
  have hspan : spanDig (d1 ++ '.' :: d2) = (d1, '.' :: d2) :=
    spanDig_split h1 (by decide)
  have hmix : isMixedNum (d1 ++ '.' :: d2) = false := by
    apply isMixedNum_false hspan
    intro c hc
    have h' : '.' = c := by injection hc
    subst h'
    decide
  have hfrac : isSimpleFrac (d1 ++ '.' :: d2) = false := by
    apply isSimpleFrac_false hspan
    intro hc
    have : ('.' : Char) = '/' := by injection hc
    exact absurd this (by decide)
  unfold parseAmount003
  rw [isEmpty_false_of_ne_nil hne]
  simp only [Bool.false_eq_true, if_false]
  rw [htrim, isEmpty_false_of_ne_nil hne, htaste]
  simp only [Bool.or_self, Bool.false_eq_true, if_false]
  rw [hmix, hfrac]
  simp only [Bool.false_eq_true, if_false]
  rw [jsNumber_decimal h1ne h1 h2]
  rfl

/-- The local parser on a canonical fraction string `d1 ++ "/" ++ d2` with a
non-zero denominator. -/
theorem parse003_fracStr {d1 d2 : List Char} (h1ne : d1 ≠ [])
    (h1 : ∀ c ∈ d1, isDig c = true) (h2ne : d2 ≠ [])
    (h2 : ∀ c ∈ d2, isDig c = true) (hden : natVal d2 ≠ 0) :
    parseAmount003 (d1 ++ '/' :: d2) =
      .ok (.num ((natVal d1 : ℚ) / (natVal d2 : ℚ))) := by
  have hall : ∀ c ∈ d1 ++ '/' :: d2, isDig c = true ∨ c = '/' := by
    intro c hc
    rcases List.mem_append.1 hc with h | h
    · exact Or.inl (h1 c h)
    · rcases List.mem_cons.1 h with rfl | h
      · exact Or.inr rfl
      · exact Or.inl (h2 c h)
  have hne : d1 ++ '/' :: d2 ≠ [] := by simp
  have htrim : jsTrim (d1 ++ '/' :: d2) = d1 ++ '/' :: d2 := by
    apply jsTrim_of_no_ws
    intro c hc
    rcases hall c hc with h | rfl
    · exact digits_not_ws h
    · decide
  have hlow : lowerStr (d1 ++ '/' :: d2) = d1 ++ '/' :: d2 := by
    apply lowerStr_of_no_upper
    intro c hc
    rcases hall c hc with h | rfl
    · exact isDig_not_upper h
    · decide
  have htaste : containsSub ("to taste".data) (lowerStr (d1 ++ '/' :: d2)) = false := by
    rw [hlow]
    apply containsSub_to_taste_false
    intro hm
    rcases hall 't' hm with h | h
    · exact isDig_ne_t h rfl
    · exact absurd h (by decide)
  have hspan : spanDig (d1 ++ '/' :: d2) = (d1, '/' :: d2) :=
    spanDig_split h1 (by decide)
  have hmix : isMixedNum (d1 ++ '/' :: d2) = false := by
    apply isMixedNum_false hspan
    intro c hc
    have h' : '/' = c := by injection hc
    subst h'
    decide
  have hfrac : isSimpleFrac (d1 ++ '/' :: d2) = true := by
    unfold isSimpleFrac
    rw [hspan]
    simp only [List.head?_cons, List.tail_cons]
    rw [spanDig_all h2]
    simp [isEmpty_false_of_ne_nil h1ne, isEmpty_false_of_ne_nil h2ne]
  have hslash1 : ('/' : Char) ∉ d1 := fun hm => isDig_ne (h1 '/' hm) (by decide) rfl
  have hslash2 : ('/' : Char) ∉ d2 := fun hm => isDig_ne (h2 '/' hm) (by decide) rfl
  have hsplit : splitCh '/' (d1 ++ '/' :: d2) = [d1, d2] := by
    rw [splitCh_append_sep hslash1, splitCh_of_not_mem hslash2]
  unfold parseAmount003
  rw [isEmpty_false_of_ne_nil hne]
  simp only [Bool.false_eq_true, if_false]
  rw [htrim, isEmpty_false_of_ne_nil hne, htaste]
  simp only [Bool.or_self, Bool.false_eq_true, if_false]
  rw [hmix]
  simp only [Bool.false_eq_true, if_false]
  rw [hfrac]
  simp only [if_true]
  rw [hsplit]
  show Except.ok ((jsNumber d1).div (jsNumber d2)) = _
  rw [jsNumber_digits h1ne h1, jsNumber_digits h2ne h2,
    jsdiv_num (by exact_mod_cast hden)]

theorem spanWs_none {t : List Char}
    (h : ∀ c, t.head? = some c → isWsJs c = false) : spanWs t = ([], t) := by
  cases t with
  | nil => rfl
  | cons c cs => simp [spanWs, h c rfl]

/-- The local parser on a canonical mixed-number string
`d1 ++ " " ++ d2 ++ "/" ++ d3` with a non-zero denominator. -/
theorem parse003_mixedStr {d1 d2 d3 : List Char} (h1ne : d1 ≠ [])
    (h1 : ∀ c ∈ d1, isDig c = true) (h2ne : d2 ≠ [])
    (h2 : ∀ c ∈ d2, isDig c = true) (h3ne : d3 ≠ [])
    (h3 : ∀ c ∈ d3, isDig c = true) (hden : natVal d3 ≠ 0) :
    parseAmount003 (d1 ++ ' ' :: (d2 ++ '/' :: d3)) =
      .ok (.num ((natVal d1 : ℚ) + (natVal d2 : ℚ) / (natVal d3 : ℚ))) := by
  set s : List Char := d1 ++ ' ' :: (d2 ++ '/' :: d3) with hs_def
  have hall : ∀ c ∈ s, isDig c = true ∨ c = ' ' ∨ c = '/' := by
    intro c hc
    rcases List.mem_append.1 hc with h | h
    · exact Or.inl (h1 c h)
    · rcases List.mem_cons.1 h with rfl | h
      · exact Or.inr (Or.inl rfl)
      · rcases List.mem_append.1 h with h | h
        · exact Or.inl (h2 c h)
        · rcases List.mem_cons.1 h with rfl | h
          · exact Or.inr (Or.inr rfl)
          · exact Or.inl (h3 c h)
  have hne : s ≠ [] := by simp [hs_def]
  have htrim : jsTrim s = s := by
    match d1, h1ne with
    | c :: cs, _ =>
        have hc : isDig c = true := h1 c (by simp)
        have hd3last : d3.getLast? = some (d3.getLast h3ne) :=
          List.getLast?_eq_getLast_of_ne_nil h3ne
        have hlast : s.getLast? = some (d3.getLast h3ne) := by
          rw [hs_def, List.getLast?_append_of_ne_nil _ (by simp)]
          rw [show (' ' :: (d2 ++ '/' :: d3) : List Char) = (' ' :: d2 ++ '/' :: d3) by simp]
          rw [List.getLast?_append_of_ne_nil _ (by simp)]
          rw [show ('/' :: d3 : List Char) = ['/'] ++ d3 by simp]
          rw [List.getLast?_append_of_ne_nil _ h3ne]
          exact hd3last
        have hsc : s = c :: (cs ++ ' ' :: (d2 ++ '/' :: d3)) := by simp [hs_def]
        rw [hsc]
        apply jsTrim_of_ends (digits_not_ws hc)
        · rw [← hsc]; exact hlast
        · exact digits_not_ws (h3 _ (List.getLast_mem h3ne))
  have hlow : lowerStr s = s := by
    apply lowerStr_of_no_upper
    intro c hc
    rcases hall c hc with h | rfl | rfl
    · exact isDig_not_upper h
    · decide
    · decide
  have htaste : containsSub ("to taste".data) (lowerStr s) = false := by
    rw [hlow]
    apply containsSub_to_taste_false
    intro hm
    rcases hall 't' hm with h | h | h
    · exact isDig_ne_t h rfl
    · exact absurd h (by decide)
    · exact absurd h (by decide)
  have hspan1 : spanDig s = (d1, ' ' :: (d2 ++ '/' :: d3)) :=
    spanDig_split h1 (by decide)
  have hws : spanWs (' ' :: (d2 ++ '/' :: d3)) = ([' '], d2 ++ '/' :: d3) := by
    have hrest : spanWs (d2 ++ '/' :: d3) = ([], d2 ++ '/' :: d3) := by
      apply spanWs_none
      intro c hc
      match d2, h2ne with
      | e :: es, _ =>
          have : e = c := by
            simpa using hc
          subst this
          exact digits_not_ws (h2 e (by simp))
    simp only [spanWs, show isWsJs ' ' = true from by decide, if_true, hrest]
  have hspan2 : spanDig (d2 ++ '/' :: d3) = (d2, '/' :: d3) :=
    spanDig_split h2 (by decide)
  have hspan3 : spanDig d3 = (d3, []) := spanDig_all h3
  have hmix : isMixedNum s = true := by
    unfold isMixedNum
    rw [hspan1]
    simp only []
    rw [hws]
    simp only []
    rw [hspan2]
    simp only [List.head?_cons, List.tail_cons]
    rw [hspan3]
    simp [isEmpty_false_of_ne_nil h1ne, isEmpty_false_of_ne_nil h2ne,
      isEmpty_false_of_ne_nil h3ne]
  have hsp1 : (' ' : Char) ∉ d1 := fun hm => isDig_ne (h1 ' ' hm) (by decide) rfl
  have hsp2 : (' ' : Char) ∉ d2 ++ '/' :: d3 := by
    intro hm
    rcases List.mem_append.1 hm with h | h
    · exact isDig_ne (h2 ' ' h) (by decide) rfl
    · rcases List.mem_cons.1 h with h | h
      · exact absurd h (by decide)
      · exact isDig_ne (h3 ' ' h) (by decide) rfl
  have hsplit : splitCh ' ' s = [d1, d2 ++ '/' :: d3] := by
    rw [hs_def, splitCh_append_sep hsp1, splitCh_of_not_mem hsp2]
  have hslash2 : ('/' : Char) ∉ d2 := fun hm => isDig_ne (h2 '/' hm) (by decide) rfl
  have hslash3 : ('/' : Char) ∉ d3 := fun hm => isDig_ne (h3 '/' hm) (by decide) rfl
  have hsplit2 : splitCh '/' (d2 ++ '/' :: d3) = [d2, d3] := by
    rw [splitCh_append_sep hslash2, splitCh_of_not_mem hslash3]
  unfold parseAmount003
  rw [isEmpty_false_of_ne_nil hne]
  simp only [Bool.false_eq_true, if_false]
  rw [htrim, isEmpty_false_of_ne_nil hne, htaste]
  simp only [Bool.or_self, Bool.false_eq_true, if_false]
  rw [hmix]
  simp only [if_true]
  rw [hsplit]
  show Except.ok ((jsNumber d1).add
      ((undefNum (splitCh '/' (d2 ++ '/' :: d3)).head?).div
        (undefNum (splitCh '/' (d2 ++ '/' :: d3)).tail.head?))) = _
  rw [hsplit2]
  show Except.ok ((jsNumber d1).add ((jsNumber d2).div (jsNumber d3))) = _
  rw [jsNumber_digits h1ne h1, jsNumber_digits h2ne h2, jsNumber_digits h3ne h3,
    jsdiv_num (by exact_mod_cast hden), jsadd_num]

/-- The local parser on the decimal rendering of a natural number. -/
theorem parse003_natStr (m : ℕ) :
    parseAmount003 (natStr m) = .ok (.num m) := by
  rw [parse003_digits (natStr_ne_nil m) (natStr_all_digits m), natVal_natStr]

/-- The local parser inverts `String(k/10)` for `k ≥ 0`: the one-decimal
fallback of `formatAmount` reparses to exactly `k/10`. -/
theorem parse003_tenthStr {k : ℤ} (hk : 0 ≤ k) :
    parseAmount003 (tenthStr k) = .ok (.num ((k : ℚ) / 10)) := by
  unfold tenthStr
  by_cases hmod : k % 10 = 0
  · rw [if_pos hmod]
    unfold intStrZ
    rw [if_neg (by omega)]
    rw [parse003_natStr]
    obtain ⟨m, rfl⟩ : ∃ m : ℤ, k = 10 * m := ⟨k / 10, by omega⟩
    have hm : 0 ≤ m := by omega
    have h10 : ((10 * m : ℤ) / 10 : ℤ) = m := by omega
    rw [h10]
    have hcast : ((m.toNat : ℕ) : ℚ) = (m : ℚ) := by
      exact_mod_cast Int.toNat_of_nonneg hm
    congr 1
    rw [hcast]
    push_cast
    ring
  · rw [if_neg hmod, if_neg (by omega)]
    unfold natTenth
    rw [parse003_decimal (natStr_ne_nil _) (natStr_all_digits _)
      (by
        intro c hc
        simp only [List.mem_singleton] at hc
        exact hc ▸ isDig_digCh (Nat.mod_lt _ (by omega)))]
    congr 1
    congr 1
    rw [natVal_natStr]
    have hv : natVal [digCh (k.toNat % 10)] = k.toNat % 10 := by
      show 10 * 0 + digVal (digCh (k.toNat % 10)) = _
      rw [digVal_digCh (Nat.mod_lt _ (by omega))]
      omega
    rw [hv]
    have hlen : ([digCh (k.toNat % 10)] : List Char).length = 1 := rfl
    rw [hlen]
    have hsplit : (k.toNat : ℚ) = 10 * ((k.toNat / 10 : ℕ) : ℚ) + ((k.toNat % 10 : ℕ) : ℚ) := by
      exact_mod_cast (Nat.div_add_mod k.toNat 10).symm
    have hkq : ((k : ℚ)) = ((k.toNat : ℕ) : ℚ) := by
      exact_mod_cast (Int.toNat_of_nonneg hk).symm
    rw [hkq]
    rw [hsplit]
    push_cast
    ring

/-! ### The format–parse tolerance lemma -/

theorem digVal_c0 : digVal '0' = 0 := rfl
theorem digVal_c1 : digVal '1' = 1 := rfl
theorem digVal_c2 : digVal '2' = 2 := rfl
theorem digVal_c3 : digVal '3' = 3 := rfl
theorem digVal_c4 : digVal '4' = 4 := rfl
theorem digVal_c5 : digVal '5' = 5 := rfl
theorem digVal_c6 : digVal '6' = 6 := rfl
theorem digVal_c7 : digVal '7' = 7 := rfl
theorem digVal_c8 : digVal '8' = 8 := rfl
theorem digVal_c9 : digVal '9' = 9 := rfl

/-- Parses of the seven rendered fraction strings. -/
theorem parse003_frac_table :
    parseAmount003 ("1/8".data) = .ok (.num (1/8)) ∧
    parseAmount003 ("1/4".data) = .ok (.num (1/4)) ∧
    parseAmount003 ("1/3".data) = .ok (.num (1/3)) ∧
    parseAmount003 ("1/2".data) = .ok (.num (1/2)) ∧
    parseAmount003 ("2/3".data) = .ok (.num (2/3)) ∧
    parseAmount003 ("3/4".data) = .ok (.num (3/4)) ∧
    parseAmount003 ("7/8".data) = .ok (.num (7/8)) := by
  refine ⟨?_, ?_, ?_, ?_, ?_, ?_, ?_⟩
  · rw [show ("1/8".data : List Char) = ['1'] ++ '/' :: ['8'] from rfl,
      @parse003_fracStr ['1'] ['8'] (by simp) (by decide) (by simp) (by decide) (by decide)]
    norm_num [natVal, digVal_c1, digVal_c8]
  · rw [show ("1/4".data : List Char) = ['1'] ++ '/' :: ['4'] from rfl,
      @parse003_fracStr ['1'] ['4'] (by simp) (by decide) (by simp) (by decide) (by decide)]
    norm_num [natVal, digVal_c1, digVal_c4]
  · rw [show ("1/3".data : List Char) = ['1'] ++ '/' :: ['3'] from rfl,
      @parse003_fracStr ['1'] ['3'] (by simp) (by decide) (by simp) (by decide) (by decide)]
    norm_num [natVal, digVal_c1, digVal_c3]
  · rw [show ("1/2".data : List Char) = ['1'] ++ '/' :: ['2'] from rfl,
      @parse003_fracStr ['1'] ['2'] (by simp) (by decide) (by simp) (by decide) (by decide)]
    norm_num [natVal, digVal_c1, digVal_c2]
  · rw [show ("2/3".data : List Char) = ['2'] ++ '/' :: ['3'] from rfl,
      @parse003_fracStr ['2'] ['3'] (by simp) (by decide) (by simp) (by decide) (by decide)]
    norm_num [natVal, digVal_c2, digVal_c3]
  · rw [show ("3/4".data : List Char) = ['3'] ++ '/' :: ['4'] from rfl,
      @parse003_fracStr ['3'] ['4'] (by simp) (by decide) (by simp) (by decide) (by decide)]
    norm_num [natVal, digVal_c3, digVal_c4]
  · rw [show ("7/8".data : List Char) = ['7'] ++ '/' :: ['8'] from rfl,
      @parse003_fracStr ['7'] ['8'] (by simp) (by decide) (by simp) (by decide) (by decide)]
    norm_num [natVal, digVal_c7, digVal_c8]

theorem findFrac_cases {q : ℚ} {out : List Char}
    (h : findFrac q commonFracs = some out) :
    (|q - 125/1000| < 2/100 ∧ out = "1/8".data) ∨
    (|q - 25/100| < 2/100 ∧ out = "1/4".data) ∨
    (|q - 3333333333/10000000000| < 2/100 ∧ out = "1/3".data) ∨
    (|q - 5/10| < 2/100 ∧ out = "1/2".data) ∨
    (|q - 6666666667/10000000000| < 2/100 ∧ out = "2/3".data) ∨
    (|q - 75/100| < 2/100 ∧ out = "3/4".data) ∨
    (|q - 875/1000| < 2/100 ∧ out = "7/8".data) := by
  unfold commonFracs at h
  rw [findFrac] at h
  by_cases h1 : |q - 125/1000| < 2/100
  · rw [if_pos h1] at h
    exact Or.inl ⟨h1, (Option.some.inj h).symm⟩
  rw [if_neg h1, findFrac] at h
  by_cases h2 : |q - 25/100| < 2/100
  · rw [if_pos h2] at h
    exact Or.inr (Or.inl ⟨h2, (Option.some.inj h).symm⟩)
  rw [if_neg h2, findFrac] at h
  by_cases h3 : |q - 3333333333/10000000000| < 2/100
  · rw [if_pos h3] at h
    exact Or.inr (Or.inr (Or.inl ⟨h3, (Option.some.inj h).symm⟩))
  rw [if_neg h3, findFrac] at h
  by_cases h4 : |q - 5/10| < 2/100
  · rw [if_pos h4] at h
    exact Or.inr (Or.inr (Or.inr (Or.inl ⟨h4, (Option.some.inj h).symm⟩)))
  rw [if_neg h4, findFrac] at h
  by_cases h5 : |q - 6666666667/10000000000| < 2/100
  · rw [if_pos h5] at h
    exact Or.inr (Or.inr (Or.inr (Or.inr (Or.inl ⟨h5, (Option.some.inj h).symm⟩))))
  rw [if_neg h5, findFrac] at h
  by_cases h6 : |q - 75/100| < 2/100
  · rw [if_pos h6] at h
    exact Or.inr (Or.inr (Or.inr (Or.inr (Or.inr (Or.inl ⟨h6, (Option.some.inj h).symm⟩)))))
  rw [if_neg h6, findFrac] at h
  by_cases h7 : |q - 875/1000| < 2/100
  · rw [if_pos h7] at h
    exact Or.inr (Or.inr (Or.inr (Or.inr (Or.inr (Or.inr ⟨h7, (Option.some.inj h).symm⟩)))))
  rw [if_neg h7, findFrac] at h
  exact absurd h (by simp)

/-- On integer values ≥ 1 the table never matches (all its keys are below 1). -/
theorem findFrac_none_of_ge_one {q : ℚ} (h : 1 ≤ q) :
    findFrac q commonFracs = none := by
  have habs : ∀ k : ℚ, k ≤ 875/1000 → ¬(|q - k| < 2/100) := by
    intro k hk habs
    have h1 : q - k ≤ |q - k| := le_abs_self _
    linarith
  unfold commonFracs
  rw [findFrac, if_neg (habs _ (by norm_num)), findFrac, if_neg (habs _ (by norm_num)),
    findFrac, if_neg (habs _ (by norm_num)), findFrac, if_neg (habs _ (by norm_num)),
    findFrac, if_neg (habs _ (by norm_num)), findFrac, if_neg (habs _ (by norm_num)),
    findFrac, if_neg (habs _ (by norm_num)), findFrac]

/-- Parsing the local format of any positive finite value recovers a
non-negative value within 0.05 of it. -/
theorem parse003_format {q : ℚ} (hq : 0 < q) :
    ∃ v : ℚ, parseAmount003 (formatAmount003 (.num q)) = .ok (.num v) ∧
      0 ≤ v ∧ |v - q| ≤ 1/20 := by
  show ∃ v : ℚ, parseAmount003
      (if q = 0 then ['0']
       else if q.den = 1 then intStrZ q.num
       else
         match findFrac q commonFracs with
         | some v => v
         | none => tenthStr (jsRound (q * 10))) = .ok (.num v) ∧
      0 ≤ v ∧ |v - q| ≤ 1/20
  rw [if_neg (ne_of_gt hq)]
  by_cases hden : q.den = 1
  · rw [if_pos hden]
    have hnum : 0 < q.num := Rat.num_pos.2 hq
    unfold intStrZ
    rw [if_neg (by omega)]
    refine ⟨(q.num.toNat : ℚ), by rw [parse003_natStr], by positivity, ?_⟩
    have h1 : ((q.num.toNat : ℕ) : ℤ) = q.num := Int.toNat_of_nonneg (le_of_lt hnum)
    have h2 : (q.num : ℚ) = q := by
      conv_rhs => rw [← Rat.num_div_den q]
      rw [hden]
      norm_num
    have hv : ((q.num.toNat : ℕ) : ℚ) = q := by
      rw [← h2]
      exact_mod_cast congrArg (fun z : ℤ => (z : ℚ)) h1
    rw [hv]
    simp
  · rw [if_neg hden]
    cases hf : findFrac q commonFracs with
    | some out =>
        simp only []
        rcases findFrac_cases hf with ⟨hb, rfl⟩ | ⟨hb, rfl⟩ | ⟨hb, rfl⟩ | ⟨hb, rfl⟩ |
          ⟨hb, rfl⟩ | ⟨hb, rfl⟩ | ⟨hb, rfl⟩ <;>
          rcases abs_lt.1 hb with ⟨hlo, hhi⟩
        · exact ⟨1/8, parse003_frac_table.1, by norm_num, by rw [abs_le]; constructor <;> linarith⟩
        · exact ⟨1/4, parse003_frac_table.2.1, by norm_num, by rw [abs_le]; constructor <;> linarith⟩
        · exact ⟨1/3, parse003_frac_table.2.2.1, by norm_num, by rw [abs_le]; constructor <;> linarith⟩
        · exact ⟨1/2, parse003_frac_table.2.2.2.1, by norm_num, by rw [abs_le]; constructor <;> linarith⟩
        · exact ⟨2/3, parse003_frac_table.2.2.2.2.1, by norm_num, by rw [abs_le]; constructor <;> linarith⟩
        · exact ⟨3/4, parse003_frac_table.2.2.2.2.2.1, by norm_num, by rw [abs_le]; constructor <;> linarith⟩
        · exact ⟨7/8, parse003_frac_table.2.2.2.2.2.2, by norm_num, by rw [abs_le]; constructor <;> linarith⟩
    | none =>
        have hk : 0 ≤ jsRound (q * 10) := jsRound_nonneg (by positivity)
        refine ⟨((jsRound (q * 10) : ℤ) : ℚ) / 10, parse003_tenthStr hk, by positivity, ?_⟩
        have hclose := jsRound_close (q * 10)
        have heq : ((jsRound (q * 10) : ℤ) : ℚ) / 10 - q
            = (((jsRound (q * 10) : ℤ) : ℚ) - q * 10) / 10 := by ring
        rw [heq, abs_div, abs_of_pos (by norm_num : (0:ℚ) < 10)]
        linarith

/-! ### Scaling a single object line, and the round trip -/

theorem normalizeItems_obj (n a u : List Char) :
    normalizeItems [.obj n a u] = [⟨jsTrim n, a, u⟩] := rfl

/-- Scaling a single object line with a positive finite parsed amount. -/
theorem adjust_obj_scaled {a : List Char} {q : ℚ} (n u : List Char) (s0 s1 : ℚ)
    (hp : parseAmount003 a = .ok (.num q)) (hq : 0 < q) (hs0 : s0 ≠ 0) :
    adjustIngredientsLocally [.obj n a u] s0 s1 =
      .ok [⟨jsTrim n, formatAmount003 (.num (q / s0 * s1)), u⟩] := by
  unfold adjustIngredientsLocally
  rw [normalizeItems_obj]
  unfold mapScale scaleIng
  simp only []
  rw [hp]
  simp only []
  rw [if_pos (gtZero_num.2 hq)]
  have ho : orOne s0 = s0 := by simp [orOne, hs0]
  rw [ho, jsdiv_num hs0, jsmul_num]
  rfl

/-- Scaling a single object line whose parsed amount is not positive blanks
the amount and the unit. -/
theorem adjust_obj_blank {a : List Char} {p : JSNum} (n u : List Char) (s0 s1 : ℚ)
    (hp : parseAmount003 a = .ok p) (hg : p.gtZero = false) :
    adjustIngredientsLocally [.obj n a u] s0 s1 = .ok [⟨jsTrim n, [], []⟩] := by
  unfold adjustIngredientsLocally
  rw [normalizeItems_obj]
  unfold mapScale scaleIng
  simp only []
  rw [hp]
  simp only []
  rw [if_neg (by simp [hg])]
  rfl

/-- `scale(scale(line, s0, s1), s1, s0)`: the first adjustment's output lines
are fed back (as the objects the component stores) for the reverse
adjustment. -/
def roundTripScale (it : RawItem) (s0 s1 : ℚ) : Except Unit (List Ing) :=
  match adjustIngredientsLocally [it] s0 s1 with
  | .error e => .error e
  | .ok ings =>
      adjustIngredientsLocally
        (ings.map (fun i => RawItem.obj i.name i.amount i.unit)) s1 s0

/-- Round-trip tolerance: the reconstructed numeric amount is within
`0.05 * (1 + s0/s1)` of the original. -/
theorem roundTrip_tolerance (n a u : List Char) (q s0 s1 : ℚ)
    (hp : parseAmount003 a = .ok (.num q)) (hq : 0 < q)
    (h0 : 1 ≤ s0) (h1 : 1 ≤ s1) :
    ∃ ing : Ing, ∃ v : ℚ,
      roundTripScale (.obj n a u) s0 s1 = .ok [ing] ∧
      parseAmount003 ing.amount = .ok (.num v) ∧
      |v - q| ≤ 1/20 * (1 + s0 / s1) := by
  have hs0 : s0 ≠ 0 := by linarith
  have hs1 : s1 ≠ 0 := by linarith
  have hs0p : (0:ℚ) < s0 := by linarith
  have hs1p : (0:ℚ) < s1 := by linarith
  have hq1 : 0 < q / s0 * s1 := by positivity
  obtain ⟨v1, hv1parse, hv1nonneg, hv1close⟩ := parse003_format hq1
  unfold roundTripScale
  rw [adjust_obj_scaled n u s0 s1 hp hq hs0]
  simp only [List.map]
  by_cases hpos : 0 < v1
  · rw [adjust_obj_scaled _ _ s1 s0 hv1parse hpos hs1]
    obtain ⟨v2, hv2parse, hv2nonneg, hv2close⟩ :=
      parse003_format (show (0:ℚ) < v1 / s1 * s0 by positivity)
    refine ⟨⟨jsTrim (jsTrim n), formatAmount003 (.num (v1 / s1 * s0)), u⟩, v2,
      rfl, hv2parse, ?_⟩
    have hq2 : v1 / s1 * s0 - q = (v1 - q / s0 * s1) * (s0 / s1) := by
      field_simp
      ring
    have hmid : |v1 / s1 * s0 - q| ≤ 1/20 * (s0 / s1) := by
      rw [hq2, abs_mul, abs_of_pos (show (0:ℚ) < s0 / s1 by positivity)]
      exact mul_le_mul_of_nonneg_right hv1close (by positivity)
    have htri : |v2 - q| ≤ |v2 - v1 / s1 * s0| + |v1 / s1 * s0 - q| :=
      abs_sub_le _ _ _
    calc |v2 - q| ≤ |v2 - v1 / s1 * s0| + |v1 / s1 * s0 - q| := htri
      _ ≤ 1/20 + 1/20 * (s0 / s1) := add_le_add hv2close hmid
      _ = 1/20 * (1 + s0 / s1) := by ring
  · have hv10 : v1 = 0 := le_antisymm (not_lt.1 hpos) hv1nonneg
    rw [adjust_obj_blank _ _ s1 s0 hv1parse (by simp [JSNum.gtZero, hv10])]
    refine ⟨⟨jsTrim (jsTrim n), [], []⟩, 0, rfl, rfl, ?_⟩
    have hqsmall : q / s0 * s1 ≤ 1/20 := by
      have := hv1close
      rw [hv10] at this
      have h' : |0 - q / s0 * s1| = q / s0 * s1 := by
        rw [zero_sub, abs_neg, abs_of_pos hq1]
      linarith [le_of_eq h'.symm, this, le_abs_self (0 - q / s0 * s1),
        neg_abs_le (0 - q / s0 * s1)]
    have hqe : q = (q / s0 * s1) * (s0 / s1) := by
      field_simp
    have hble : q ≤ 1/20 * (s0 / s1) := by
      rw [hqe]
      exact mul_le_mul_of_nonneg_right hqsmall (by positivity)
    have habs : |(0:ℚ) - q| = q := by
      rw [zero_sub, abs_neg, abs_of_pos hq]
    rw [habs]
    nlinarith [div_pos hs0p hs1p]

/-! ### Concrete evaluation helpers -/

theorem digCh_c0 : digCh 0 = '0' := rfl
theorem digCh_c1 : digCh 1 = '1' := rfl
theorem digCh_c2 : digCh 2 = '2' := rfl
theorem digCh_c3 : digCh 3 = '3' := rfl

theorem natStr_lt10 {n : ℕ} (h : n < 10) : natStr n = [digCh n] := by
  rw [natStr]
  exact dif_pos h

theorem formatAmount003_tenth {q : ℚ} (h0 : q ≠ 0) (hden : q.den ≠ 1)
    (hff : findFrac q commonFracs = none) :
    formatAmount003 (.num q) = tenthStr (jsRound (q * 10)) := by
  show (if q = 0 then ['0']
    else if q.den = 1 then intStrZ q.num
    else
      match findFrac q commonFracs with
      | some v => v
      | none => tenthStr (jsRound (q * 10))) = _
  rw [if_neg h0, if_neg hden, hff]

theorem tenthStr_small {k : ℤ} (h0 : 0 ≤ k) (h10 : k % 10 ≠ 0) :
    tenthStr k = natStr (k.toNat / 10) ++ '.' :: [digCh (k.toNat % 10)] := by
  unfold tenthStr
  rw [if_neg h10, if_neg (by omega)]
  rfl

theorem parse003_toTaste : parseAmount003 ("to taste".data) = .ok (.num 0) := by
  decide

theorem parse003_one : parseAmount003 ("1".data) = .ok (.num 1) := by
  rw [show ("1".data : List Char) = ['1'] from rfl,
    parse003_digits (by simp) (by decide)]
  norm_num [natVal, digVal_c1]

theorem parse003_two : parseAmount003 ("2".data) = .ok (.num 2) := by
  rw [show ("2".data : List Char) = ['2'] from rfl,
    parse003_digits (by simp) (by decide)]
  norm_num [natVal, digVal_c2]

theorem parse003_one_and_half : parseAmount003 ("1 1/2".data) = .ok (.num (3/2)) := by
  rw [show ("1 1/2".data : List Char) = ['1'] ++ ' ' :: (['1'] ++ '/' :: ['2']) from rfl,
    @parse003_mixedStr ['1'] ['1'] ['2'] (by simp) (by decide) (by simp) (by decide)
      (by simp) (by decide) (by decide)]
  norm_num [natVal, digVal_c1, digVal_c2]

theorem parse003_zero_three : parseAmount003 ("0.3".data) = .ok (.num (3/10)) := by
  rw [show ("0.3".data : List Char) = ['0'] ++ '.' :: ['3'] from rfl,
    @parse003_decimal ['0'] ['3'] (by simp) (by decide) (by decide)]
  norm_num [natVal, digVal_c0, digVal_c3]

theorem parse003_one_one : parseAmount003 ("1.1".data) = .ok (.num (11/10)) := by
  rw [show ("1.1".data : List Char) = ['1'] ++ '.' :: ['1'] from rfl,
    @parse003_decimal ['1'] ['1'] (by simp) (by decide) (by decide)]
  norm_num [natVal, digVal_c1]

theorem findFrac_two_sevenths : findFrac (2/7 : ℚ) commonFracs = none := by
  unfold commonFracs
  rw [findFrac, if_neg (by rw [abs_sub_lt_iff]; norm_num),
    findFrac, if_neg (by rw [abs_sub_lt_iff]; norm_num),
    findFrac, if_neg (by rw [abs_sub_lt_iff]; norm_num),
    findFrac, if_neg (by rw [abs_sub_lt_iff]; norm_num),
    findFrac, if_neg (by rw [abs_sub_lt_iff]; norm_num),
    findFrac, if_neg (by rw [abs_sub_lt_iff]; norm_num),
    findFrac, if_neg (by rw [abs_sub_lt_iff]; norm_num), findFrac]

theorem format_two_sevenths : formatAmount003 (.num (2/7)) = "0.3".data := by
  rw [formatAmount003_tenth (by norm_num) (by norm_num) findFrac_two_sevenths]
  have hr : jsRound ((2/7 : ℚ) * 10) = 3 := by
    unfold jsRound
    rw [Int.floor_eq_iff]
    norm_num
  rw [hr, tenthStr_small (by norm_num) (by decide)]
  rw [show (3:ℤ).toNat = 3 from rfl, show (3:ℕ)/10 = 0 from rfl,
    show (3:ℕ)%10 = 3 from rfl, natStr_lt10 (by norm_num), digCh_c0, digCh_c3]
  rfl

theorem format_tw_excess : formatAmount003 (.num (21/20)) = "1.1".data := by
  rw [formatAmount003_tenth (by norm_num) (by norm_num)
    (findFrac_none_of_ge_one (by norm_num))]
  have hr : jsRound ((21/20 : ℚ) * 10) = 11 := by
    unfold jsRound
    rw [Int.floor_eq_iff]
    norm_num
  rw [hr, tenthStr_small (by norm_num) (by decide)]
  rw [show (11:ℤ).toNat = 11 from rfl, show (11:ℕ)/10 = 1 from rfl,
    show (11:ℕ)%10 = 1 from rfl, natStr_lt10 (by norm_num), digCh_c1]
  rfl

theorem format_nine_quarters : formatAmount003 (.num (9/4)) = "2.3".data := by
  rw [formatAmount003_tenth (by norm_num) (by norm_num)
    (findFrac_none_of_ge_one (by norm_num))]
  have hr : jsRound ((9/4 : ℚ) * 10) = 23 := by
    unfold jsRound
    rw [Int.floor_eq_iff]
    norm_num
  rw [hr, tenthStr_small (by norm_num) (by decide)]
  rw [show (23:ℤ).toNat = 23 from rfl, show (23:ℕ)/10 = 2 from rfl,
    show (23:ℕ)%10 = 3 from rfl, natStr_lt10 (by norm_num), digCh_c2, digCh_c3]
  rfl

/-! ### The shared parser on the four canonical forms -/

theorem parse005_digits {d : List Char} (hne : d ≠ [])
    (hd : ∀ c ∈ d, isDig c = true) : parseAmount005 d = .num (natVal d) := by
  have htrim : jsTrim d = d := jsTrim_of_no_ws (fun c hc => digits_not_ws (hd c hc))
  have hlow : lowerStr d = d := lowerStr_of_no_upper (fun c hc => isDig_not_upper (hd c hc))
  have hsp : d.contains ' ' = false :=
    contains_eq_false_of_not_mem (fun hm => isDig_ne (hd ' ' hm) (by decide) rfl)
  have hsl : d.contains '/' = false :=
    contains_eq_false_of_not_mem (fun hm => isDig_ne (hd '/' hm) (by decide) rfl)
  unfold parseAmount005
  rw [isEmpty_false_of_ne_nil hne]
  simp only [Bool.false_eq_true, if_false]
  rw [htrim, hlow, isEmpty_false_of_ne_nil hne]
  simp only [Bool.false_eq_true, if_false]
  rw [hsp]
  simp only [Bool.false_eq_true, if_false]
  rw [hsl]
  simp only [Bool.false_eq_true, if_false]
  rw [jsNumber_digits hne hd]
  rfl

theorem parse005_decimal {d1 d2 : List Char} (h1ne : d1 ≠ [])
    (h1 : ∀ c ∈ d1, isDig c = true) (h2 : ∀ c ∈ d2, isDig c = true) :
    parseAmount005 (d1 ++ '.' :: d2) =
      .num ((natVal d1 : ℚ) + (natVal d2 : ℚ) / 10 ^ d2.length) := by
  have hall : ∀ c ∈ d1 ++ '.' :: d2, isDig c = true ∨ c = '.' := by
    intro c hc
    rcases List.mem_append.1 hc with h | h
    · exact Or.inl (h1 c h)
    · rcases List.mem_cons.1 h with rfl | h
      · exact Or.inr rfl
      · exact Or.inl (h2 c h)
  have hne : d1 ++ '.' :: d2 ≠ [] := by simp
  have htrim : jsTrim (d1 ++ '.' :: d2) = d1 ++ '.' :: d2 := by
    apply jsTrim_of_no_ws
    intro c hc
    rcases hall c hc with h | rfl
    · exact digits_not_ws h
    · decide
  have hlow : lowerStr (d1 ++ '.' :: d2) = d1 ++ '.' :: d2 := by
    apply lowerStr_of_no_upper
    intro c hc
    rcases hall c hc with h | rfl
    · exact isDig_not_upper h
    · decide
  have hsp : (d1 ++ '.' :: d2).contains ' ' = false := by
    apply contains_eq_false_of_not_mem
    intro hm
    rcases hall ' ' hm with h | h
    · exact isDig_ne h (by decide) rfl
    · exact absurd h (by decide)
  have hsl : (d1 ++ '.' :: d2).contains '/' = false := by
    apply contains_eq_false_of_not_mem
    intro hm
    rcases hall '/' hm with h | h
    · exact isDig_ne h (by decide) rfl
    · exact absurd h (by decide)
  unfold parseAmount005
  rw [isEmpty_false_of_ne_nil hne]
  simp only [Bool.false_eq_true, if_false]
  rw [htrim, hlow, isEmpty_false_of_ne_nil hne]
  simp only [Bool.false_eq_true, if_false]
  rw [hsp]
  simp only [Bool.false_eq_true, if_false]
  rw [hsl]
  simp only [Bool.false_eq_true, if_false]
  rw [jsNumber_decimal h1ne h1 h2]
  rfl

theorem parse005_fracStr {d1 d2 : List Char} (h1ne : d1 ≠ [])
    (h1 : ∀ c ∈ d1, isDig c = true) (h2ne : d2 ≠ [])
    (h2 : ∀ c ∈ d2, isDig c = true) (hden : natVal d2 ≠ 0) :
    parseAmount005 (d1 ++ '/' :: d2) =
      .num ((natVal d1 : ℚ) / (natVal d2 : ℚ)) := by
  have hall : ∀ c ∈ d1 ++ '/' :: d2, isDig c = true ∨ c = '/' := by
    intro c hc
    rcases List.mem_append.1 hc with h | h
    · exact Or.inl (h1 c h)
    · rcases List.mem_cons.1 h with rfl | h
      · exact Or.inr rfl
      · exact Or.inl (h2 c h)
  have hne : d1 ++ '/' :: d2 ≠ [] := by simp
  have htrim : jsTrim (d1 ++ '/' :: d2) = d1 ++ '/' :: d2 := by
    apply jsTrim_of_no_ws
    intro c hc
    rcases hall c hc with h | rfl
    · exact digits_not_ws h
    · decide
  have hlow : lowerStr (d1 ++ '/' :: d2) = d1 ++ '/' :: d2 := by
    apply lowerStr_of_no_upper
    intro c hc
    rcases hall c hc with h | rfl
    · exact isDig_not_upper h
    · decide
  have hsp : (d1 ++ '/' :: d2).contains ' ' = false := by
    apply contains_eq_false_of_not_mem
    intro hm
    rcases hall ' ' hm with h | h
    · exact isDig_ne h (by decide) rfl
    · exact absurd h (by decide)
  have hsl : (d1 ++ '/' :: d2).contains '/' = true :=
    contains_eq_true_of_mem (List.mem_append.2 (Or.inr (by simp)))
  have hslash1 : ('/' : Char) ∉ d1 := fun hm => isDig_ne (h1 '/' hm) (by decide) rfl
  have hslash2 : ('/' : Char) ∉ d2 := fun hm => isDig_ne (h2 '/' hm) (by decide) rfl
  have hsplit : splitCh '/' (d1 ++ '/' :: d2) = [d1, d2] := by
    rw [splitCh_append_sep hslash1, splitCh_of_not_mem hslash2]
  have hdq : ((natVal d2 : ℚ)) ≠ 0 := by exact_mod_cast hden
  unfold parseAmount005
  rw [isEmpty_false_of_ne_nil hne]
  simp only [Bool.false_eq_true, if_false]
  rw [htrim, hlow, isEmpty_false_of_ne_nil hne]
  simp only [Bool.false_eq_true, if_false]
  rw [hsp]
  simp only [Bool.false_eq_true, if_false]
  rw [hsl]
  simp only [if_true]
  rw [hsplit]
  show (match
      (if !(jsNumber d1).isNaNb && !(jsNumber d2).isNaNb &&
          !(jsNumber d2 == JSNum.num 0) then
        some ((jsNumber d1).div (jsNumber d2))
      else none : Option JSNum) with
    | some v => v
    | none =>
        if (jsNumber (d1 ++ '/' :: d2)).isNaNb then JSNum.num 0
        else jsNumber (d1 ++ '/' :: d2)) = _
  rw [jsNumber_digits h1ne h1, jsNumber_digits h2ne h2]
  rw [if_pos]
  · show (JSNum.num (natVal d1)).div (JSNum.num (natVal d2)) = _
    rw [jsdiv_num hdq]
  · simp [JSNum.isNaNb, beq_eq_false_iff_ne, hdq]

theorem parse005_mixedStr {d1 d2 d3 : List Char} (h1ne : d1 ≠ [])
    (h1 : ∀ c ∈ d1, isDig c = true) (h2ne : d2 ≠ [])
    (h2 : ∀ c ∈ d2, isDig c = true) (h3ne : d3 ≠ [])
    (h3 : ∀ c ∈ d3, isDig c = true) (hden : natVal d3 ≠ 0) :
    parseAmount005 (d1 ++ ' ' :: (d2 ++ '/' :: d3)) =
      .num ((natVal d1 : ℚ) + (natVal d2 : ℚ) / (natVal d3 : ℚ)) := by
  set s : List Char := d1 ++ ' ' :: (d2 ++ '/' :: d3) with hs_def
  have hall : ∀ c ∈ s, isDig c = true ∨ c = ' ' ∨ c = '/' := by
    intro c hc
    rcases List.mem_append.1 hc with h | h
    · exact Or.inl (h1 c h)
    · rcases List.mem_cons.1 h with rfl | h
      · exact Or.inr (Or.inl rfl)
      · rcases List.mem_append.1 h with h | h
        · exact Or.inl (h2 c h)
        · rcases List.mem_cons.1 h with rfl | h
          · exact Or.inr (Or.inr rfl)
          · exact Or.inl (h3 c h)
  have hne : s ≠ [] := by simp [hs_def]
  have htrim : jsTrim s = s := by
    match d1, h1ne with
    | c :: cs, _ =>
        have hc : isDig c = true := h1 c (by simp)
        have hd3last : d3.getLast? = some (d3.getLast h3ne) :=
          List.getLast?_eq_getLast_of_ne_nil h3ne
        have hlast : s.getLast? = some (d3.getLast h3ne) := by
          rw [hs_def, List.getLast?_append_of_ne_nil _ (by simp)]
          rw [show (' ' :: (d2 ++ '/' :: d3) : List Char) = (' ' :: d2 ++ '/' :: d3) by simp]
          rw [List.getLast?_append_of_ne_nil _ (by simp)]
          rw [show ('/' :: d3 : List Char) = ['/'] ++ d3 by simp]
          rw [List.getLast?_append_of_ne_nil _ h3ne]
          exact hd3last
        have hsc : s = c :: (cs ++ ' ' :: (d2 ++ '/' :: d3)) := by simp [hs_def]
        rw [hsc]
        apply jsTrim_of_ends (digits_not_ws hc)
        · rw [← hsc]; exact hlast
        · exact digits_not_ws (h3 _ (List.getLast_mem h3ne))
  have hlow : lowerStr s = s := by
    apply lowerStr_of_no_upper
    intro c hc
    rcases hall c hc with h | rfl | rfl
    · exact isDig_not_upper h
    · decide
    · decide
  have hsp : s.contains ' ' = true := by
    apply contains_eq_true_of_mem
    rw [hs_def]
    exact List.mem_append.2 (Or.inr (by simp))
  have hsp1 : (' ' : Char) ∉ d1 := fun hm => isDig_ne (h1 ' ' hm) (by decide) rfl
  have hsp2 : (' ' : Char) ∉ d2 ++ '/' :: d3 := by
    intro hm
    rcases List.mem_append.1 hm with h | h
    · exact isDig_ne (h2 ' ' h) (by decide) rfl
    · rcases List.mem_cons.1 h with h | h
      · exact absurd h (by decide)
      · exact isDig_ne (h3 ' ' h) (by decide) rfl
  have hsplit : splitCh ' ' s = [d1, d2 ++ '/' :: d3] := by
    rw [hs_def, splitCh_append_sep hsp1, splitCh_of_not_mem hsp2]
  have hfilter : (splitCh ' ' s).filter (fun p => !p.isEmpty) =
      [d1, d2 ++ '/' :: d3] := by
    rw [hsplit]
    simp [List.filter, isEmpty_false_of_ne_nil h1ne,
      isEmpty_false_of_ne_nil (show d2 ++ '/' :: d3 ≠ [] by simp)]
  have hslash2 : ('/' : Char) ∉ d2 := fun hm => isDig_ne (h2 '/' hm) (by decide) rfl
  have hslash3 : ('/' : Char) ∉ d3 := fun hm => isDig_ne (h3 '/' hm) (by decide) rfl
  have hsplit2 : splitCh '/' (d2 ++ '/' :: d3) = [d2, d3] := by
    rw [splitCh_append_sep hslash2, splitCh_of_not_mem hslash3]
  have hcsl : (d2 ++ '/' :: d3).contains '/' = true :=
    contains_eq_true_of_mem (List.mem_append.2 (Or.inr (by simp)))
  have hdq : ((natVal d3 : ℚ)) ≠ 0 := by exact_mod_cast hden
  unfold parseAmount005
  rw [isEmpty_false_of_ne_nil hne]
  simp only [Bool.false_eq_true, if_false]
  rw [htrim, hlow, isEmpty_false_of_ne_nil hne]
  simp only [Bool.false_eq_true, if_false]
  rw [hsp]
  simp only [if_true]
  rw [hfilter]
  have hgd : (([d1, d2 ++ '/' :: d3] : List (List Char)).getD 1 []) =
      d2 ++ '/' :: d3 := rfl
  have hnum3 : JSNum.num (natVal d3) ≠ JSNum.num 0 := by
    intro he
    injection he with he'
    exact hdq he'
  simp only [hgd, hsplit2, List.headD_cons, List.tail_cons, List.head?_cons,
    undefNum, jsNumber_digits h1ne h1, jsNumber_digits h2ne h2,
    jsNumber_digits h3ne h3, hcsl, JSNum.isNaNb, Bool.not_false, Bool.and_true,
    Bool.true_and, List.length_cons, List.length_nil]
  rw [if_pos (by simp), if_pos (by simp [beq_eq_false_iff_ne, hnum3])]
  rw [jsdiv_num hdq, jsadd_num]

/-- Every string the four-forms grammar accepts decomposes into one of the
four canonical shapes, with the denoted value. -/
theorem fourFormVal_cases {s : List Char} {v : ℚ} (h : fourFormVal s = some v) :
    (s ≠ [] ∧ (∀ c ∈ s, isDig c = true) ∧ v = natVal s) ∨
    (∃ d1 d2, s = d1 ++ '.' :: d2 ∧ d1 ≠ [] ∧ d2 ≠ [] ∧
      (∀ c ∈ d1, isDig c = true) ∧ (∀ c ∈ d2, isDig c = true) ∧
      v = (natVal d1 : ℚ) + (natVal d2 : ℚ) / 10 ^ d2.length) ∨
    (∃ d1 d2, s = d1 ++ '/' :: d2 ∧ d1 ≠ [] ∧ d2 ≠ [] ∧
      (∀ c ∈ d1, isDig c = true) ∧ (∀ c ∈ d2, isDig c = true) ∧
      natVal d2 ≠ 0 ∧ v = (natVal d1 : ℚ) / (natVal d2 : ℚ)) ∨
    (∃ d1 d2 d3, s = d1 ++ ' ' :: (d2 ++ '/' :: d3) ∧
      d1 ≠ [] ∧ d2 ≠ [] ∧ d3 ≠ [] ∧
      (∀ c ∈ d1, isDig c = true) ∧ (∀ c ∈ d2, isDig c = true) ∧
      (∀ c ∈ d3, isDig c = true) ∧ natVal d3 ≠ 0 ∧
      v = (natVal d1 : ℚ) + (natVal d2 : ℚ) / (natVal d3 : ℚ)) := by
  unfold fourFormVal at h
  rw [spanDig_eq] at h
  simp only [] at h
  have hs : s = s.takeWhile isDig ++ s.dropWhile isDig :=
    (List.takeWhile_append_dropWhile _ _).symm
  have hd1 : ∀ c ∈ s.takeWhile isDig, isDig c = true :=
    fun c hc => List.mem_takeWhile_imp hc
  cases hemp : (s.takeWhile isDig).isEmpty with
  | true => rw [hemp] at h; simp at h
  | false =>
  rw [hemp] at h
  simp only [Bool.false_eq_true, if_false] at h
  have hd1ne : s.takeWhile isDig ≠ [] := by
    intro he
    rw [he] at hemp
    simp at hemp
  cases hr1 : s.dropWhile isDig with
  | nil =>
      rw [hr1] at h
      simp only [] at h
      refine Or.inl ⟨?_, ?_, ?_⟩
      · intro he
        rw [he] at hd1ne
        simp at hd1ne
      · intro c hc
        rw [hs, hr1] at hc
        exact hd1 c (by simpa using hc)
      · have hv : v = natVal (s.takeWhile isDig) := by
          injection h with h'
          exact h'.symm
        rw [hv]
        congr 1
        conv_rhs => rw [hs, hr1, List.append_nil]
  | cons c r2 =>
  rw [hr1] at h
  simp only [] at h
  by_cases hc : c = '.'
  · subst hc
    rw [if_pos rfl] at h
    rw [spanDig_eq] at h
    simp only [] at h
    have hr2 : r2 = r2.takeWhile isDig ++ r2.dropWhile isDig :=
      (List.takeWhile_append_dropWhile _ _).symm
    cases hcond : (!(r2.takeWhile isDig).isEmpty && (r2.dropWhile isDig).isEmpty) with
    | false => rw [hcond] at h; simp at h
    | true =>
        rw [hcond] at h
        simp only [if_true] at h
        have hcondP := hcond
        rw [Bool.and_eq_true] at hcondP
        rcases hcondP with ⟨hne2, hnil2⟩
        have hd2ne : r2.takeWhile isDig ≠ [] := by
          intro he
          rw [he] at hne2
          simp at hne2
        have hr3 : r2.dropWhile isDig = [] := by
          cases hd : r2.dropWhile isDig with
          | nil => rfl
          | cons x xs => rw [hd] at hnil2; simp at hnil2
        have hr2t : r2 = r2.takeWhile isDig := by
          conv_lhs => rw [hr2, hr3]
          rw [List.append_nil]
        refine Or.inr (Or.inl ⟨s.takeWhile isDig, r2.takeWhile isDig, ?_, hd1ne,
          hd2ne, hd1, fun c hc => List.mem_takeWhile_imp hc, ?_⟩)
        · conv_lhs => rw [hs, hr1]
          rw [← hr2t]
        · injection h with h'
          rw [← h']
  · by_cases hc2 : c = '/'
    · subst hc2
      rw [if_neg hc, if_pos rfl] at h
      rw [spanDig_eq] at h
      simp only [] at h
      have hr2 : r2 = r2.takeWhile isDig ++ r2.dropWhile isDig :=
        (List.takeWhile_append_dropWhile _ _).symm
      cases hcond : (!(r2.takeWhile isDig).isEmpty && (r2.dropWhile isDig).isEmpty &&
          decide (natVal (r2.takeWhile isDig) ≠ 0)) with
      | false => rw [hcond] at h; simp at h
      | true =>
          rw [hcond] at h
          simp only [if_true] at h
          have hcondP := hcond
          rw [Bool.and_eq_true, Bool.and_eq_true] at hcondP
          rcases hcondP with ⟨⟨hne2, hnil2⟩, hden⟩
          have hd2ne : r2.takeWhile isDig ≠ [] := by
            intro he
            rw [he] at hne2
            simp at hne2
          have hr3 : r2.dropWhile isDig = [] := by
            cases hd : r2.dropWhile isDig with
            | nil => rfl
            | cons x xs => rw [hd] at hnil2; simp at hnil2
          have hr2t : r2 = r2.takeWhile isDig := by
            conv_lhs => rw [hr2, hr3]
            rw [List.append_nil]
          refine Or.inr (Or.inr (Or.inl ⟨s.takeWhile isDig, r2.takeWhile isDig,
            ?_, hd1ne, hd2ne, hd1, fun c hc => List.mem_takeWhile_imp hc,
            by simpa using hden, ?_⟩))
          · conv_lhs => rw [hs, hr1]
            rw [← hr2t]
          · injection h with h'
            rw [← h']
    · by_cases hc3 : c = ' '
      · subst hc3
        rw [if_neg hc, if_neg hc2, if_pos rfl] at h
        rw [spanDig_eq] at h
        simp only [] at h
        have hr2 : r2 = r2.takeWhile isDig ++ r2.dropWhile isDig :=
          (List.takeWhile_append_dropWhile _ _).symm
        cases hr3 : r2.dropWhile isDig with
        | nil => rw [hr3] at h; simp at h
        | cons c2 r4 =>
        rw [hr3] at h
        simp only [] at h
        by_cases hc4 : c2 = '/'
        · subst hc4
          rw [if_pos rfl] at h
          rw [spanDig_eq] at h
          simp only [] at h
          have hr4 : r4 = r4.takeWhile isDig ++ r4.dropWhile isDig :=
            (List.takeWhile_append_dropWhile _ _).symm
          cases hcond : (!(r2.takeWhile isDig).isEmpty &&
              !(r4.takeWhile isDig).isEmpty && (r4.dropWhile isDig).isEmpty &&
              decide (natVal (r4.takeWhile isDig) ≠ 0)) with
          | false => rw [hcond] at h; simp at h
          | true =>
              rw [hcond] at h
              simp only [if_true] at h
              have hcondP := hcond
              rw [Bool.and_eq_true, Bool.and_eq_true, Bool.and_eq_true] at hcondP
              rcases hcondP with ⟨⟨⟨hne2, hne3⟩, hnil4⟩, hden⟩
              have hd2ne : r2.takeWhile isDig ≠ [] := by
                intro he
                rw [he] at hne2
                simp at hne2
              have hd3ne : r4.takeWhile isDig ≠ [] := by
                intro he
                rw [he] at hne3
                simp at hne3
              have hr5 : r4.dropWhile isDig = [] := by
                cases hd : r4.dropWhile isDig with
                | nil => rfl
                | cons x xs => rw [hd] at hnil4; simp at hnil4
              have hr4t : r4 = r4.takeWhile isDig := by
                conv_lhs => rw [hr4, hr5]
                rw [List.append_nil]
              refine Or.inr (Or.inr (Or.inr ⟨s.takeWhile isDig,
                r2.takeWhile isDig, r4.takeWhile isDig, ?_, hd1ne, hd2ne, hd3ne,
                hd1, fun c hc => List.mem_takeWhile_imp hc,
                fun c hc => List.mem_takeWhile_imp hc,
                by simpa using hden, ?_⟩))
              · conv_lhs => rw [hs, hr1]
                conv_lhs => rw [hr2, hr3]
                rw [← hr4t]
              · injection h with h'
                rw [← h']
        · rw [if_neg hc4] at h
          simp at h
      · rw [if_neg hc, if_neg hc2, if_neg hc3] at h
        simp at h

/-! ## Claim theorems -/

/-- C1 (counterexample): scaling the line `{name: "salt", amount: "to taste"}`
from 2 to 3 servings does NOT preserve the amount string — the output amount
is the empty string, not `"to taste"`. -/
theorem C1_cex :
    adjustIngredientsLocally [.obj ("salt".data) ("to taste".data) []] 2 3 =
      .ok [⟨"salt".data, [], []⟩] ∧ ("to taste".data : List Char) ≠ [] := by
  constructor
  · rw [adjust_obj_blank ("salt".data) [] 2 3 parse003_toTaste
      (by simp [JSNum.gtZero])]
    decide
  · decide

/-- C1 (amended): for every object line whose amount string parses to the
non-numeric sentinel 0, scaling from any serving count to any other returns
the line with the name trimmed and the amount and unit replaced by empty
strings (blanked), at every pair of serving counts. -/
theorem C1_blanked (n a u : List Char) (s0 s1 : ℚ)
    (hp : parseAmount003 a = .ok (.num 0)) :
    adjustIngredientsLocally [.obj n a u] s0 s1 = .ok [⟨jsTrim n, [], []⟩] :=
  adjust_obj_blank n u s0 s1 hp (by simp [JSNum.gtZero])

/-- C1 witness: the amended statement at `{name: "salt", amount: "to taste"}`,
servings 2 → 3. -/
theorem C1_blanked_witness :
    parseAmount003 ("to taste".data) = .ok (.num 0) ∧
    adjustIngredientsLocally [.obj ("salt".data) ("to taste".data) []] 2 3 =
      .ok [⟨jsTrim ("salt".data), [], []⟩] :=
  ⟨parse003_toTaste,
    C1_blanked ("salt".data) ("to taste".data) [] 2 3 parse003_toTaste⟩

/-- C4 (counterexample): the amount "1 1/2" scaled from 2 to 3 servings is
2.25 but renders as "2.3" — not "2 1/4" as the claim's fractional-remainder
convention would give. -/
theorem C4_cex :
    adjustIngredientsLocally
        [.obj ("butter".data) ("1 1/2".data) ("tbsp".data)] 2 3 =
      .ok [⟨"butter".data, "2.3".data, "tbsp".data⟩] ∧
    ("2.3".data : List Char) ≠ "2 1/4".data := by
  constructor
  · rw [adjust_obj_scaled ("butter".data) ("tbsp".data) 2 3 parse003_one_and_half
      (by norm_num) (by norm_num)]
    rw [show ((3:ℚ)/2 / 2 * 3) = 9/4 by norm_num, format_nine_quarters]
    decide
  · decide

/-- C4 (amended): the common-fraction tolerance check compares the FULL value
against the table (whose keys are all below 1), so every non-integer value
≥ 1 falls through to the one-decimal fallback `String(Math.round(n*10)/10)`. -/
theorem C4_full_value_fallback (q : ℚ) (h1 : 1 ≤ q) (hden : q.den ≠ 1) :
    formatAmount003 (.num q) = tenthStr (jsRound (q * 10)) :=
  formatAmount003_tenth (by intro h; rw [h] at h1; norm_num at h1) hden
    (findFrac_none_of_ge_one h1)

/-- C4 witness: at the scenario's scaled value 2.25 the fallback renders
"2.3". -/
theorem C4_full_value_fallback_witness :
    (1 : ℚ) ≤ 9/4 ∧ formatAmount003 (.num (9/4)) = tenthStr (jsRound ((9/4) * 10)) :=
  ⟨by norm_num, C4_full_value_fallback (9/4) (by norm_num) (by norm_num)⟩

/-- C3 (counterexample): the line `{name: "flour", amount: "1"}` scaled from
7 to 2 servings and back reconstructs the amount as "1.1", i.e. 1.1, which
differs from the original 1 by 0.1 > 0.05. -/
theorem C3_cex :
    roundTripScale (.obj ("flour".data) ("1".data) ("cup".data)) 7 2 =
      .ok [⟨"flour".data, "1.1".data, "cup".data⟩] ∧
    parseAmount003 ("1.1".data) = .ok (.num (11/10)) ∧
    parseAmount003 ("1".data) = .ok (.num 1) ∧
    ¬(|(11/10 : ℚ) - 1| ≤ 5/100) := by
  refine ⟨?_, parse003_one_one, parse003_one, ?_⟩
  · unfold roundTripScale
    rw [adjust_obj_scaled ("flour".data) ("cup".data) 7 2 parse003_one
      (by norm_num) (by norm_num)]
    rw [show ((1:ℚ)/7 * 2) = 2/7 by norm_num, format_two_sevenths]
    simp only [List.map]
    have h2 : adjustIngredientsLocally
        [.obj (jsTrim ("flour".data)) ("0.3".data) ("cup".data)] 2 7 =
        .ok [⟨jsTrim (jsTrim ("flour".data)), formatAmount003 (.num (21/20)),
          "cup".data⟩] := by
      rw [adjust_obj_scaled _ ("cup".data) 2 7 parse003_zero_three
        (by norm_num) (by norm_num)]
      rw [show ((3:ℚ)/10 / 2 * 7) = 21/20 by norm_num]
    rw [h2, format_tw_excess]
    decide
  · rw [abs_sub_le_iff]
    norm_num

/-- C3 (amended): the round trip `scale(scale(line, s0, s1), s1, s0)`
reconstructs a positive numeric amount within `0.05 * (1 + s0/s1)` absolute
tolerance (the one-decimal rounding of the first pass, up to 0.05, is
amplified by `s0/s1` on the way back and the second pass adds up to 0.05
more). -/
theorem C3_roundtrip (n a u : List Char) (q s0 s1 : ℚ)
    (hp : parseAmount003 a = .ok (.num q)) (hq : 0 < q)
    (h0 : 1 ≤ s0) (h1 : 1 ≤ s1) :
    ∃ ing : Ing, ∃ v : ℚ,
      roundTripScale (.obj n a u) s0 s1 = .ok [ing] ∧
      parseAmount003 ing.amount = .ok (.num v) ∧
      |v - q| ≤ 1/20 * (1 + s0 / s1) :=
  roundTrip_tolerance n a u q s0 s1 hp hq h0 h1

/-- C3 witness: the round trip on `{name: "flour", amount: "2"}` between 2
and 3 servings. -/
theorem C3_roundtrip_witness :
    ∃ ing : Ing, ∃ v : ℚ,
      roundTripScale (.obj ("flour".data) ("2".data) ("cups".data)) 2 3 =
        .ok [ing] ∧
      parseAmount003 ing.amount = .ok (.num v) ∧
      |v - 2| ≤ 1/20 * (1 + (2:ℚ) / 3) :=
  C3_roundtrip ("flour".data) ("2".data) ("cups".data) 2 2 3 parse003_two
    (by norm_num) (by norm_num) (by norm_num)

/-- Whether an outcome surfaces an error to the caller. -/
def SCOutcome.isRaised : SCOutcome → Bool
  | .raised _ => true
  | _ => false

/-- C5 (counterexample): requesting 0 servings is silently ignored — the
handler returns with no state change and surfaces no
`InvalidServingCountError` (no `raised` outcome). -/
theorem C5_cex :
    handleServingsChange
        ⟨4, ⟨4, 4, 0, 800, 30, 50, 20, []⟩, none, none⟩ 0 = .noChange ∧
    SCOutcome.isRaised
      (handleServingsChange
        ⟨4, ⟨4, 4, 0, 800, 30, 50, 20, []⟩, none, none⟩ 0) = false := by
  have h : handleServingsChange
      ⟨4, ⟨4, 4, 0, 800, 30, 50, 20, []⟩, none, none⟩ 0 = .noChange := by
    unfold handleServingsChange
    rw [if_pos (by norm_num)]
  exact ⟨h, by rw [h]; rfl⟩

/-- C5 (amended): every target serving count strictly below 1 is silently
ignored: the handler returns the `noChange` outcome — the component state is
untouched and no error is raised or surfaced. -/
theorem C5_silent_ignore (st : DState) (n : ℚ) (h : n < 1) :
    handleServingsChange st n = .noChange := by
  unfold handleServingsChange
  rw [if_pos h]

/-- C5 witness: target 0 on a concrete state. -/
theorem C5_silent_ignore_witness :
    (0 : ℚ) < 1 ∧
    handleServingsChange
      ⟨4, ⟨4, 4, 0, 800, 30, 50, 20, []⟩, none, none⟩ 0 = .noChange :=
  ⟨by norm_num,
    C5_silent_ignore ⟨4, ⟨4, 4, 0, 800, 30, 50, 20, []⟩, none, none⟩ 0
      (by norm_num)⟩

/-- C6: with a truthy `original_servings`, each of the four displayed
nutrition values is the field multiplied by `servings / original_servings`
and rounded (`Math.round`, half-up) — and each displayed value is within 1/2
of the exact product. -/
theorem C6_nutrition_scaling (r : FRecipe) (s : ℚ)
    (horig : 1 ≤ r.original_servings) (hs : 1 ≤ s) :
    nutritionValues r s =
      ⟨(jsRound (r.calories * s / r.original_servings) : ℚ),
        (jsRound (r.protein * s / r.original_servings) : ℚ),
        (jsRound (r.carbs * s / r.original_servings) : ℚ),
        (jsRound (r.fat * s / r.original_servings) : ℚ)⟩ ∧
    |(nutritionValues r s).calories - r.calories * s / r.original_servings|
      ≤ 1/2 := by
  have hne : r.original_servings ≠ 0 := by intro h; rw [h] at horig; norm_num at horig
  have hmul : servingMultiplier r s = s / r.original_servings := by
    unfold servingMultiplier
    rw [if_neg hne]
  have heq : nutritionValues r s =
      ⟨(jsRound (r.calories * s / r.original_servings) : ℚ),
        (jsRound (r.protein * s / r.original_servings) : ℚ),
        (jsRound (r.carbs * s / r.original_servings) : ℚ),
        (jsRound (r.fat * s / r.original_servings) : ℚ)⟩ := by
    unfold nutritionValues
    rw [hmul]
    congr 1 <;> · congr 1; ring
  refine ⟨heq, ?_⟩
  rw [heq]
  exact jsRound_close _

/-- C6 witness: a recipe with base servings 4 and calories 800, displayed at
8 servings, shows 1600 calories (and the multiplier applies to all four
fields). -/
theorem C6_nutrition_scaling_witness :
    (nutritionValues ⟨4, 4, 800, 30, 50, 20⟩ 8).calories = 1600 ∧
    (1 : ℚ) ≤ 4 := by
  constructor
  · have h := (C6_nutrition_scaling ⟨4, 4, 800, 30, 50, 20⟩ 8 (by norm_num)
      (by norm_num)).1
    have h2 : (nutritionValues ⟨4, 4, 800, 30, 50, 20⟩ 8).calories
        = ((jsRound ((800:ℚ) * 8 / 4) : ℤ) : ℚ) := by rw [h]
    rw [h2, show (800:ℚ) * 8 / 4 = 1600 by norm_num]
    unfold jsRound
    have hfl : ⌊(1600:ℚ) + 1/2⌋ = 1600 := by
      rw [Int.floor_eq_iff]
      norm_num
    rw [hfl]
    norm_num
  · norm_num

/-- C8 (counterexample): with `["egg"]` present, adding `"Egg"` — equal to
`"egg"` after case normalization — changes the list (a case-variant duplicate
is appended). -/
theorem C8_cex :
    addIngredient ["egg".data] ("Egg".data) = (["egg".data, "Egg".data], []) ∧
    lowerStr (jsTrim ("Egg".data)) = lowerStr (jsTrim ("egg".data)) ∧
    (["egg".data, "Egg".data] : List (List Char)) ≠ ["egg".data] := by
  refine ⟨?_, by decide, by decide⟩
  decide

/-- C8 (amended): deduplication is by exact string equality after trimming
only — adding a token whose trimmed form is already present (verbatim) leaves
the ingredient list and the input box unchanged. -/
theorem C8_trim_dedup (ingredients : List (List Char)) (input : List Char)
    (h : jsTrim input ∈ ingredients) :
    addIngredient ingredients input = (ingredients, input) := by
  simp [addIngredient, contains_eq_true_of_mem h, h]

/-- C8 witness: adding `" egg "` (trimming to the present `"egg"`) changes
nothing. -/
theorem C8_trim_dedup_witness :
    jsTrim (" egg ".data) ∈ ["egg".data] ∧
    addIngredient ["egg".data] (" egg ".data) = (["egg".data], " egg ".data) :=
  ⟨by decide, C8_trim_dedup ["egg".data] (" egg ".data) (by decide)⟩

/-! ### Cooking-time buckets and the dietary filter -/

theorem passes_quick (r : SRecipe) :
    recipePasses ⟨[], [], "Quick".data, []⟩ r = decide (r.cooking_time < 30) := by
  unfold recipePasses
  by_cases h : (30:ℚ) ≤ r.cooking_time
  · simp [h, not_lt.2 h]
  · simp [h, not_le.1 h]

theorem passes_moderate (r : SRecipe) :
    recipePasses ⟨[], [], "Moderate".data, []⟩ r =
      (decide (30 ≤ r.cooking_time) && decide (r.cooking_time ≤ 60)) := by
  unfold recipePasses
  by_cases h1 : r.cooking_time < 30
  · simp [h1, not_le.2 h1]
  · by_cases h2 : (60:ℚ) < r.cooking_time
    · simp [h1, h2, not_le.2 h2, not_lt.1 h1]
    · simp [h1, h2, not_lt.1 h1, not_lt.1 h2]

theorem passes_long (r : SRecipe) :
    recipePasses ⟨[], [], "Long".data, []⟩ r = decide (60 < r.cooking_time) := by
  unfold recipePasses
  by_cases h : r.cooking_time ≤ 60
  · simp [h, not_lt.2 h]
  · simp [h, not_le.1 h]

/-- C10: the three cooking-time buckets partition the non-negative cooking
times — for every recipe exactly one of the `Quick`, `Moderate`, `Long`
filter values retains it. -/
theorem C10_bucket_partition (r : SRecipe) (h : 0 ≤ r.cooking_time) :
    (recipePasses ⟨[], [], "Quick".data, []⟩ r = true ∨
      recipePasses ⟨[], [], "Moderate".data, []⟩ r = true ∨
      recipePasses ⟨[], [], "Long".data, []⟩ r = true) ∧
    ¬(recipePasses ⟨[], [], "Quick".data, []⟩ r = true ∧
      recipePasses ⟨[], [], "Moderate".data, []⟩ r = true) ∧
    ¬(recipePasses ⟨[], [], "Quick".data, []⟩ r = true ∧
      recipePasses ⟨[], [], "Long".data, []⟩ r = true) ∧
    ¬(recipePasses ⟨[], [], "Moderate".data, []⟩ r = true ∧
      recipePasses ⟨[], [], "Long".data, []⟩ r = true) := by
  rw [passes_quick, passes_moderate, passes_long]
  simp only [Bool.and_eq_true, decide_eq_true_eq]
  refine ⟨?_, ?_, ?_, ?_⟩
  · rcases lt_or_le r.cooking_time 30 with h30 | h30
    · exact Or.inl h30
    · rcases le_or_lt r.cooking_time 60 with h60 | h60
      · exact Or.inr (Or.inl ⟨h30, h60⟩)
      · exact Or.inr (Or.inr h60)
  · rintro ⟨hA, hB, _⟩
    linarith
  · rintro ⟨hA, hB⟩
    linarith
  · rintro ⟨⟨_, hA⟩, hB⟩
    linarith

/-- C10 witness: a recipe with cooking time 45 (retained by `Moderate`
only). -/
theorem C10_bucket_partition_witness :
    (0 : ℚ) ≤ (⟨[], [], 45, []⟩ : SRecipe).cooking_time ∧
    ((recipePasses ⟨[], [], "Quick".data, []⟩ (⟨[], [], 45, []⟩ : SRecipe) = true ∨
      recipePasses ⟨[], [], "Moderate".data, []⟩ (⟨[], [], 45, []⟩ : SRecipe) = true ∨
      recipePasses ⟨[], [], "Long".data, []⟩ (⟨[], [], 45, []⟩ : SRecipe) = true) ∧
    ¬(recipePasses ⟨[], [], "Quick".data, []⟩ (⟨[], [], 45, []⟩ : SRecipe) = true ∧
      recipePasses ⟨[], [], "Moderate".data, []⟩ (⟨[], [], 45, []⟩ : SRecipe) = true) ∧
    ¬(recipePasses ⟨[], [], "Quick".data, []⟩ (⟨[], [], 45, []⟩ : SRecipe) = true ∧
      recipePasses ⟨[], [], "Long".data, []⟩ (⟨[], [], 45, []⟩ : SRecipe) = true) ∧
    ¬(recipePasses ⟨[], [], "Moderate".data, []⟩ (⟨[], [], 45, []⟩ : SRecipe) = true ∧
      recipePasses ⟨[], [], "Long".data, []⟩ (⟨[], [], 45, []⟩ : SRecipe) = true)) :=
  ⟨by norm_num, C10_bucket_partition ⟨[], [], 45, []⟩ (by norm_num)⟩

/-- C2 (counterexample): with requested dietary tags `{Vegan, Keto}`, a
recipe carrying only `Vegan` is RETAINED by the filter although it lacks
`Keto` — the filter is an ANY-match, not the claim's ALL-match. -/
theorem C2_cex :
    filteredRecipes ⟨["Vegan".data, "Keto".data], [], [], []⟩
        [⟨["Vegan".data], "Easy".data, 20, "Thai".data⟩] =
      [⟨["Vegan".data], "Easy".data, 20, "Thai".data⟩] ∧
    "Keto".data ∉
      (⟨["Vegan".data], "Easy".data, 20, "Thai".data⟩ : SRecipe).dietary_tags := by
  constructor
  · have hp : recipePasses ⟨["Vegan".data, "Keto".data], [], [], []⟩
        ⟨["Vegan".data], "Easy".data, 20, "Thai".data⟩ = true := by
      unfold recipePasses
      norm_num
      decide
    unfold filteredRecipes
    simp [List.filter, hp]
  · decide

/-- C2 (amended): with only the dietary filter set (non-empty), the results
page retains a recipe if and only if it appears in the search results and at
least ONE requested tag is among its dietary tags. -/
theorem C2_dietary_any (f : Filters) (rs : List SRecipe) (r : SRecipe)
    (hd : f.dietary ≠ []) (h1 : f.difficulty = []) (h2 : f.cookingTime = [])
    (h3 : f.cuisine = []) :
    r ∈ filteredRecipes f rs ↔ r ∈ rs ∧ ∃ p ∈ f.dietary, p ∈ r.dietary_tags := by
  unfold filteredRecipes
  rw [List.mem_filter]
  have hpass : recipePasses f r =
      f.dietary.any (fun p => r.dietary_tags.contains p) := by
    unfold recipePasses
    rw [h1, h2, h3]
    cases hb : f.dietary.any (fun p => r.dietary_tags.contains p)
    · simp [isEmpty_false_of_ne_nil hd, hb]
    · simp [hb]
  rw [hpass]
  simp [List.any_eq_true, List.contains, List.elem_iff]

theorem charToNat_0 : ('0' : Char).toNat = 48 := rfl
theorem charToNat_1 : ('1' : Char).toNat = 49 := rfl
theorem charToNat_2 : ('2' : Char).toNat = 50 := rfl
theorem charToNat_3 : ('3' : Char).toNat = 51 := rfl

/-- The grammar accepts the mixed number "1 1/2" with value 1.5. -/
theorem fourFormVal_example : fourFormVal ("1 1/2".data) = some (3/2) := by
  norm_num +decide [fourFormVal, spanDig, isDig, natVal, digVal,
    charToNat_0, charToNat_1, charToNat_2, charToNat_3]

/-- C7 (counterexample): "1e3" is none of the four recognized forms, yet the
parser returns 1000 (the JavaScript scientific-notation reading), not the
non-numeric sentinel 0. -/
theorem C7_cex :
    fourFormVal ("1e3".data) = none ∧
    parseAmount005 ("1e3".data) = .num 1000 ∧
    JSNum.num 1000 ≠ JSNum.num 0 := by
  refine ⟨by decide, ?_, ?_⟩
  · norm_num +decide [parseAmount005, jsTrim, lowerStr, lowerCh, isWsJs, splitCh,
      undefNum, jsNumber, radixTag, signedDec, unsignedDec, decLit, spanDig,
      isDig, expSuffix, natVal, digVal, JSNum.div, JSNum.isNaNb,
      charToNat_0, charToNat_1, charToNat_2, charToNat_3]
  · intro he
    injection he with h'
    norm_num at h'

/-- C7 (amended): the shared amount parser returns the denoted numeric value
on every string of the four recognized forms (integers, decimals, simple
fractions and mixed numbers with non-zero denominators), and returns the
non-numeric sentinel 0 on "to taste" and on the empty string; it never
throws (the transcription is a total function).  Strings outside the four
forms that JavaScript's `Number` still accepts (scientific notation, hex)
are returned at that numeric value instead of the sentinel. -/
theorem C7_fourForms :
    (∀ (s : List Char) (v : ℚ), fourFormVal s = some v → parseAmount005 s = .num v) ∧
    parseAmount005 ("to taste".data) = .num 0 ∧
    parseAmount005 ([] : List Char) = .num 0 := by
  refine ⟨?_, ?_, rfl⟩
  · intro s v h
    rcases fourFormVal_cases h with ⟨hne, hd, rfl⟩ |
      ⟨d1, d2, rfl, h1ne, h2ne, h1, h2, rfl⟩ |
      ⟨d1, d2, rfl, h1ne, h2ne, h1, h2, hden, rfl⟩ |
      ⟨d1, d2, d3, rfl, h1ne, h2ne, h3ne, h1, h2, h3, hden, rfl⟩
    · exact parse005_digits hne hd
    · exact parse005_decimal h1ne h1 h2
    · exact parse005_fracStr h1ne h1 h2ne h2 hden
    · exact parse005_mixedStr h1ne h1 h2ne h2 h3ne h3 hden
  · norm_num +decide [parseAmount005, jsTrim, lowerStr, lowerCh, isWsJs, splitCh,
      undefNum, jsNumber, radixTag, signedDec, unsignedDec, decLit, spanDig,
      isDig, expSuffix, natVal, digVal, JSNum.div, JSNum.isNaNb,
      charToNat_0, charToNat_1, charToNat_2, charToNat_3]

/-- C7 witness: the mixed number "1 1/2" parses to 1.5. -/
theorem C7_fourForms_witness :
    fourFormVal ("1 1/2".data) = some (3/2) ∧
    parseAmount005 ("1 1/2".data) = .num (3/2) :=
  ⟨fourFormVal_example, C7_fourForms.1 ("1 1/2".data) (3/2) fourFormVal_example⟩

/-- C9 (counterexample): on "1/0" the DetailsPage-local parser returns
`Infinity` (JavaScript `1/0`) while the shared utility's zero-denominator
guard makes it fall through to the sentinel 0 — the two parsers disagree. -/
theorem C9_cex :
    parseAmount003 ("1/0".data) = .ok JSNum.posInf ∧
    parseAmount005 ("1/0".data) = .num 0 ∧
    JSNum.posInf ≠ JSNum.num 0 := by
  refine ⟨?_, ?_, by decide⟩
  · norm_num +decide [parseAmount003, jsTrim, lowerStr, lowerCh, isWsJs, splitCh,
      undefNum, jsNumber, radixTag, signedDec, unsignedDec, decLit, spanDig,
      isDig, expSuffix, natVal, digVal, JSNum.div, JSNum.isNaNb, isMixedNum,
      isSimpleFrac, spanWs, containsSub, startsWithStr,
      charToNat_0, charToNat_1, charToNat_2, charToNat_3]
  · norm_num +decide [parseAmount005, jsTrim, lowerStr, lowerCh, isWsJs, splitCh,
      undefNum, jsNumber, radixTag, signedDec, unsignedDec, decLit, spanDig,
      isDig, expSuffix, natVal, digVal, JSNum.div, JSNum.isNaNb,
      charToNat_0, charToNat_1, charToNat_2, charToNat_3]

/-- C9 (amended): the two parsers return the same numeric value on every
string of the four canonical forms (with non-zero denominators); they are
NOT equal on every input string — zero-denominator fractions (and strings
like "Infinity" or "2/4/8") distinguish them. -/
theorem C9_agree (s : List Char) (v : ℚ) (h : fourFormVal s = some v) :
    parseAmount003 s = .ok (.num v) ∧ parseAmount005 s = .num v := by
  rcases fourFormVal_cases h with ⟨hne, hd, rfl⟩ |
    ⟨d1, d2, rfl, h1ne, h2ne, h1, h2, rfl⟩ |
    ⟨d1, d2, rfl, h1ne, h2ne, h1, h2, hden, rfl⟩ |
    ⟨d1, d2, d3, rfl, h1ne, h2ne, h3ne, h1, h2, h3, hden, rfl⟩
  · exact ⟨parse003_digits hne hd, parse005_digits hne hd⟩
  · exact ⟨parse003_decimal h1ne h1 h2, parse005_decimal h1ne h1 h2⟩
  · exact ⟨parse003_fracStr h1ne h1 h2ne h2 hden,
      parse005_fracStr h1ne h1 h2ne h2 hden⟩
  · exact ⟨parse003_mixedStr h1ne h1 h2ne h2 h3ne h3 hden,
      parse005_mixedStr h1ne h1 h2ne h2 h3ne h3 hden⟩

/-- C9 witness: both parsers read "1 1/2" as 1.5. -/
theorem C9_agree_witness :
    parseAmount003 ("1 1/2".data) = .ok (.num (3/2)) ∧
    parseAmount005 ("1 1/2".data) = .num (3/2) :=
  C9_agree ("1 1/2".data) (3/2) fourFormVal_example

/-- C2 witness: a single requested tag `{Vegan}` retains a matching recipe. -/
theorem C2_dietary_any_witness :
    (⟨["Vegan".data], "Easy".data, 20, "Thai".data⟩ : SRecipe) ∈
      filteredRecipes ⟨["Vegan".data], [], [], []⟩
        [⟨["Vegan".data], "Easy".data, 20, "Thai".data⟩] :=
  (C2_dietary_any ⟨["Vegan".data], [], [], []⟩
      [⟨["Vegan".data], "Easy".data, 20, "Thai".data⟩]
      ⟨["Vegan".data], "Easy".data, 20, "Thai".data⟩
      (by decide) rfl rfl rfl).2
    ⟨by simp, "Vegan".data, by simp, by simp⟩

end ChefsCam
